import Mathlib

/-!
Verification of the Event / Booking persistence-layer models
(`event.model.ts` and `booking.model.ts`).

The development shallowly embeds the two Mongoose pre-hooks and the
field validators/setters as pure Lean functions over `String`
(represented through `List Char`), and proves the spec's claims about
them.  Machine-level JS details are modelled as follows:

* JS strings become Lean `String`s; regex character classes become
  decidable `Char` predicates over code points (JS `\w` = `[A-Za-z0-9_]`,
  JS `\s` = the ECMAScript WhiteSpace/LineTerminator set).
* `String.prototype.toLowerCase` is modelled by its ASCII case mapping
  (`A`–`Z` ↦ `a`–`z`); non-ASCII letters are irrelevant here because the
  hook strips every character outside `[\w\s-]` right afterwards.
* `Math.random()`-generated 6-character ids and `Date.now().toString(36)`
  are passed to the hook as explicit string parameters; `generateShortId`
  is modelled from a stream of uniform samples in `Fin 36`.
* The Mongoose store is abstracted by the query callbacks the hooks
  actually issue: a slug-collision predicate `String → Bool` (modelling
  `Model.findOne({slug, _id: {$ne: this._id}})` being non-null) and, for
  bookings, the list of existing event ids (`Event.exists({_id})`).
* Fallible validation paths return `Except String α`, the error string
  being the `Error` message thrown by the hook.
-/

deriving instance DecidableEq for Except

namespace DevEvents

/-! ### Character classes (ECMAScript regex semantics, by code point) -/

/-- The ECMAScript `\s` class (WhiteSpace ∪ LineTerminator), used both by the
regex replaces in the slug pipeline and by `String.prototype.trim`. -/
def isJsSpace (c : Char) : Bool :=
  c.toNat == 32 || c.toNat == 9 || c.toNat == 10 || c.toNat == 11 ||
  c.toNat == 12 || c.toNat == 13 || c.toNat == 0xa0 || c.toNat == 0x1680 ||
  (0x2000 ≤ c.toNat && c.toNat ≤ 0x200a) || c.toNat == 0x2028 ||
  c.toNat == 0x2029 || c.toNat == 0x202f || c.toNat == 0x205f ||
  c.toNat == 0x3000 || c.toNat == 0xfeff

/-- The regex class `[a-z]` (code points 97–122). -/
def isAsciiLowerChar (c : Char) : Bool := 97 ≤ c.toNat && c.toNat ≤ 122

/-- The regex class `[A-Z]` (code points 65–90). -/
def isAsciiUpperChar (c : Char) : Bool := 65 ≤ c.toNat && c.toNat ≤ 90

/-- The regex class `[0-9]` (= `\d`, code points 48–57). -/
def isDigitChar (c : Char) : Bool := 48 ≤ c.toNat && c.toNat ≤ 57

/-- The ECMAScript `\w` class `[A-Za-z0-9_]` ('_' is code point 95). -/
def isWordChar (c : Char) : Bool :=
  isAsciiLowerChar c || isAsciiUpperChar c || isDigitChar c || c.toNat == 95

/-- The class `[0-9a-z]`: the `generateShortId` alphabet, and the digits of
`Number.prototype.toString(36)`. -/
def isBase36Char (c : Char) : Bool := isDigitChar c || isAsciiLowerChar c

/-- Model of `String.prototype.toLowerCase`, restricted to its ASCII case mapping
(`A`–`Z` ↦ `a`–`z`, everything else unchanged).  Non-ASCII letters never
reach a slug: the very next pipeline step strips all of `[^\w\s-]`. -/
def jsToLower (c : Char) : Char :=
  if isAsciiUpperChar c then Char.ofNat (c.toNat + 32) else c

/-- Model of `String.prototype.trim`: drop `\s` characters from both ends. -/
def jsTrim (l : List Char) : List Char :=
  ((l.dropWhile isJsSpace).reverse.dropWhile isJsSpace).reverse

/-! ### Slug generation pipeline (`EventSchema.pre('validate')`, part 1)

The hook builds the base candidate by
`title.toLowerCase().trim().replace(/[^\w\s-]/g, '').replace(/\s+/g, '-')
 .replace(/[-]+/g, '-').replace(/^-+|-+$/g, '')`. -/

/-- Step `.replace(/[^\w\s-]/g, '')`: keep exactly `\w`, `\s` and `-`. -/
def stripNonSlugChars (l : List Char) : List Char :=
  l.filter (fun c => isWordChar c || isJsSpace c || c == '-')

/-- Worker for `.replace(/\s+/g, '-')`: each maximal run of `\s` characters
becomes a single `'-'`.  The flag records whether the previous character
was part of a whitespace run. -/
def squashSpacesAux : Bool → List Char → List Char
  | _, [] => []
  | prev, c :: rest =>
    if isJsSpace c then
      if prev then squashSpacesAux true rest
      else '-' :: squashSpacesAux true rest
    else c :: squashSpacesAux false rest

/-- Step `.replace(/\s+/g, '-')`. -/
def squashSpaces (l : List Char) : List Char := squashSpacesAux false l

/-- Worker for `.replace(/[-]+/g, '-')`: collapse each run of hyphens to one.
The flag records whether the previous character was a hyphen. -/
def collapseHyphensAux : Bool → List Char → List Char
  | _, [] => []
  | prev, c :: rest =>
    if c == '-' then
      if prev then collapseHyphensAux true rest
      else c :: collapseHyphensAux true rest
    else c :: collapseHyphensAux false rest

/-- Step `.replace(/[-]+/g, '-')`. -/
def collapseHyphens (l : List Char) : List Char := collapseHyphensAux false l

/-- Remove the trailing run of hyphens (the `-+$` alternative of
`.replace(/^-+|-+$/g, '')`). -/
def dropTrailingHyphens : List Char → List Char
  | [] => []
  | c :: rest =>
    let r := dropTrailingHyphens rest
    if c == '-' && r.isEmpty then [] else c :: r

/-- Step `.replace(/^-+|-+$/g, '')`: strip the leading and the trailing run of
hyphens. -/
def trimHyphens (l : List Char) : List Char :=
  dropTrailingHyphens (l.dropWhile (fun c => c == '-'))

/-- The base slug candidate built from the title (the `base` variable of the
pre-validate hook). -/
def slugBase (title : String) : String :=
  ⟨trimHyphens (collapseHyphens (squashSpaces (stripNonSlugChars
      (jsTrim (title.data.map jsToLower)))))⟩

/-- The hook's `const alphabet = '0123456789abcdefghijklmnopqrstuvwxyz'`. -/
def shortIdAlphabet : List Char := "0123456789abcdefghijklmnopqrstuvwxyz".data

/-- Model of `generateShortId`: 6 characters drawn from `shortIdAlphabet`, the six
`Math.floor(Math.random() * alphabet.length)` samples being passed in as
`r`. -/
def generateShortId (r : Fin 6 → Fin 36) : String :=
  ⟨(List.finRange 6).map
      (fun i => shortIdAlphabet.get ⟨(r i).val, (r i).isLt.trans_le (by decide)⟩)⟩

/-- Digit characters of `Number.prototype.toString(36)`: `0`–`9` for values
below 10, then `a`–`z` (code points 87 + d). -/
def base36DigitChar (d : Nat) : Char :=
  if d < 10 then Char.ofNat (48 + d) else Char.ofNat (87 + d)

/-- Base-36 printing worker (fuel-style recursion, fuel strictly exceeds the
digit count at every call site). -/
def natToBase36Core : Nat → Nat → List Char → List Char
  | 0, _, acc => acc
  | fuel + 1, n, acc =>
    if n < 36 then base36DigitChar n :: acc
    else natToBase36Core fuel (n / 36) (base36DigitChar (n % 36) :: acc)

/-- Model of `n.toString(36)` for a non-negative integer `n` — the shape of the
`Date.now().toString(36)` timestamp used by the slug fallback. -/
def natToBase36 (n : Nat) : String := ⟨natToBase36Core (n + 1) n []⟩

/-- The hook's `let candidate = base || 'untitled'` (JS `||` takes the fallback exactly
when `base` is the empty string). -/
def slugCandidate (title : String) : String :=
  if slugBase title = "" then "untitled" else slugBase title

/-- The slug-assignment logic of the pre-validate hook, together with the
number of collision-check read queries it issues.

* `existsColl s` models `await Model.findOne({slug: s, _id: {$ne: this._id}})`
  returning a document, i.e. "some *other* event already has slug `s`".
* `t0 t1 t2` are the `generateShortId()` results of the three retry
  iterations, `t3` the one used by the timestamp fallback and `ts` the
  value of `Date.now().toString(36)`.

The 3-iteration `for` loop of the hook is unrolled: iteration `i` sets
`candidate` to `` `${base}-${t_i}` `` and breaks on the first non-colliding
candidate; if all three collide the fallback `` `${base}-${ts}${t3}` `` is
adopted with no further query. -/
def genSlugCount (existsColl : String → Bool) (t0 t1 t2 t3 ts : String)
    (title : String) : String × Nat :=
  let base := slugBase title
  let candidate := slugCandidate title
  if existsColl candidate = false then (candidate, 1)
  else
    let c0 := base ++ "-" ++ t0
    if existsColl c0 = false then (c0, 2)
    else
      let c1 := base ++ "-" ++ t1
      if existsColl c1 = false then (c1, 3)
      else
        let c2 := base ++ "-" ++ t2
        if existsColl c2 = false then (c2, 4)
        else (base ++ "-" ++ ts ++ t3, 4)

/-- The slug finally assigned by the hook (`this.slug = candidate`). -/
def genSlug (existsColl : String → Bool) (t0 t1 t2 t3 ts : String)
    (title : String) : String :=
  (genSlugCount existsColl t0 t1 t2 t3 ts title).1

/-! ### Well-formedness predicates used to state the slug claims -/

/-- Characters the generated slugs may contain: `\w` in lowercase form plus
the hyphen, i.e. `[a-z0-9_-]`. -/
def slugCharOk (c : Char) : Bool :=
  isAsciiLowerChar c || isDigitChar c || c.toNat == 95 || c == '-'

/-- Holds iff the list does not start with a hyphen. -/
def headNotHyphen : List Char → Bool
  | [] => true
  | c :: _ => !(c == '-')

/-- Holds iff the list does not end with a hyphen. -/
def lastNotHyphen : List Char → Bool
  | [] => true
  | [c] => !(c == '-')
  | _ :: c :: rest => lastNotHyphen (c :: rest)

/-- Holds iff the list has no two adjacent hyphens. -/
def noDoubleHyphen : List Char → Bool
  | [] => true
  | [_] => true
  | a :: b :: rest => !(a == '-' && b == '-') && noDoubleHyphen (b :: rest)

/-- A well-formed short id: 6 characters over `[0-9a-z]`. -/
def validToken (s : String) : Bool :=
  s.data.length == 6 && s.data.all isBase36Char

/-! ### JS number-to-string (decimal), used by the date/time re-serialization

`` `${n}` `` and `String(n)` print a non-negative integer in plain decimal
with no leading zeros. -/

/-- The decimal digit character for `d < 10` (code point `48 + d`). -/
def decDigitChar (d : Nat) : Char := Char.ofNat (48 + d)

/-- Decimal printing worker: prepend the digits of `n` to `acc`.  The first
argument is recursion fuel (strictly more than the number of digits at
every call site), exactly as in the standard library's decimal printer. -/
def jsNumToStringCore : Nat → Nat → List Char → List Char
  | 0, _, acc => acc
  | fuel + 1, n, acc =>
    if n < 10 then decDigitChar n :: acc
    else jsNumToStringCore fuel (n / 10) (decDigitChar (n % 10) :: acc)

/-- Model of `String(n)` / `` `${n}` `` for a non-negative integer `n`. -/
def jsNumToString (n : Nat) : String := ⟨jsNumToStringCore (n + 1) n []⟩

/-- Model of `String(n).padStart(2, '0')`. -/
def pad2Nat (n : Nat) : String :=
  if n < 10 then "0" ++ jsNumToString n else jsNumToString n

/-- Value of one digit under `parseInt(_, 10)`: code point minus 48. -/
def digitVal (c : Char) : Nat := c.toNat - 48

/-! ### Date normalization (`EventSchema.pre('validate')`, part 2)

`this.date.match(/^(\d{4})-(\d{2})-(\d{2})$/)`, then
`new Date(Date.UTC(yyyy, mm - 1, dd))` and a component round-trip check. -/

/-- Match `^(\d{4})-(\d{2})-(\d{2})$` and apply `parseInt(_, 10)` to the
three captures. -/
def parseYMD (s : String) : Option (Nat × Nat × Nat) :=
  match s.data with
  | [y1, y2, y3, y4, h1, m1, m2, h2, d1, d2] =>
    if isDigitChar y1 && isDigitChar y2 && isDigitChar y3 && isDigitChar y4 &&
        h1 == '-' && isDigitChar m1 && isDigitChar m2 && h2 == '-' &&
        isDigitChar d1 && isDigitChar d2 then
      some (digitVal y1 * 1000 + digitVal y2 * 100 + digitVal y3 * 10 + digitVal y4,
            digitVal m1 * 10 + digitVal m2,
            digitVal d1 * 10 + digitVal d2)
    else none
  | _ => none

/-- Gregorian leap-year rule (as implemented by the JS `Date`, which uses the
proleptic Gregorian calendar). -/
def isLeap (y : Nat) : Bool := y % 4 == 0 && (y % 100 != 0 || y % 400 == 0)

/-- Length of month `m` (1–12) of year `y`. -/
def daysInMonth (y m : Nat) : Nat :=
  if m = 2 then (if isLeap y then 29 else 28)
  else if m = 4 ∨ m = 6 ∨ m = 9 ∨ m = 11 then 30
  else 31

/-- Step one calendar day forward from `(y, m, d)`. -/
def nextDay (t : Nat × Nat × Nat) : Nat × Nat × Nat :=
  if t.2.2 < daysInMonth t.1 t.2.1 then (t.1, t.2.1, t.2.2 + 1)
  else if t.2.1 < 12 then (t.1, t.2.1 + 1, 1) else (t.1 + 1, 1, 1)

/-- The calendar day just before day 1 of month `(y, m)` (the day a JS `Date`
lands on when the day-of-month argument is `0`). -/
def prevDayFromFirst (y m : Nat) : Nat × Nat × Nat :=
  if m = 1 then (y - 1, 12, 31) else (y, m - 1, daysInMonth y (m - 1))

/-- Add `n` calendar days. -/
def addDays : Nat → Nat × Nat × Nat → Nat × Nat × Nat
  | 0, t => t
  | n + 1, t => addDays n (nextDay t)

/-- Invariant maintained by the calendar stepping: the month is in 1–12 and
the day is in 1–(length of that month). -/
def ValidDay (t : Nat × Nat × Nat) : Prop :=
  1 ≤ t.2.1 ∧ t.2.1 ≤ 12 ∧ 1 ≤ t.2.2 ∧ t.2.2 ≤ daysInMonth t.1 t.2.1

/-- Linearized month counter, used to compare calendar positions. -/
def monthIdx (t : Nat × Nat × Nat) : Nat := t.1 * 12 + t.2.1

/-- The components `(getUTCFullYear(), getUTCMonth() + 1, getUTCDate())` of
`new Date(Date.UTC(yyyy, mm - 1, dd))`, for `yyyy ≤ 9999`, `mm, dd ≤ 99`
(the ranges producible by the date regex).

`Date.UTC` semantics: a year argument `0 ≤ yyyy ≤ 99` is read as
`1900 + yyyy`; the (0-based) month argument `mm - 1` is carried into the
year; the day argument `dd` counts from day 1 of the resulting month, so
`dd = 0` is the last day of the preceding month and an overflowing `dd`
spills into the following months. -/
def jsUTCRoundTrip (yyyy mm dd : Nat) : Nat × Nat × Nat :=
  let yAdj := if yyyy ≤ 99 then 1900 + yyyy else yyyy
  let mt := yAdj * 12 + mm - 1
  let y' := mt / 12
  let m' := mt % 12 + 1
  if dd = 0 then prevDayFromFirst y' m' else addDays (dd - 1) (y', m', 1)

/-- The date branch of the pre-validate hook (`typeof` check, regex match,
`Date.UTC` round-trip check, zero-padded re-serialization).  The input is a
`String` by type, so the `typeof this.date !== 'string'` throw cannot fire
in this embedding. -/
def normalizeDate (s : String) : Except String String :=
  match parseYMD s with
  | none => .error "Date must be in YYYY-MM-DD format"
  | some (yyyy, mm, dd) =>
    if jsUTCRoundTrip yyyy mm dd = (yyyy, mm, dd) then
      .ok (jsNumToString yyyy ++ "-" ++ pad2Nat mm ++ "-" ++ pad2Nat dd)
    else .error "Invalid date components"

/-! ### Time normalization (`EventSchema.pre('validate')`, part 3) -/

/-- Model of `/^([0-1]?[0-9]|2[0-3]):([0-5][0-9])$/.test(s)`.  An anchored match
forces the shape `H:MM` or `HH:MM`, so the regex is decided by a
case-split on those two shapes. -/
def timeRegexTest (s : String) : Bool :=
  match s.data with
  | [h, c, a, b] =>
    c == ':' && isDigitChar h && (48 ≤ a.toNat && a.toNat ≤ 53) && isDigitChar b
  | [h1, h2, c, a, b] =>
    c == ':' &&
    ((h1 == '0' || h1 == '1') && isDigitChar h2 ||
      h1 == '2' && (48 ≤ h2.toNat && h2.toNat ≤ 51)) &&
    (48 ≤ a.toNat && a.toNat ≤ 53) && isDigitChar b
  | _ => false

/-- The time branch of the pre-validate hook: regex test, then
`split(':')` and `padStart(2, '0')` on both parts.  On a matched string the
hour part has 1 or 2 characters and the minute part exactly 2, so the
padding prepends `'0'` to a 1-character hour and changes nothing else. -/
def normalizeTime (s : String) : Except String String :=
  if timeRegexTest s = false then .error "Time must be in HH:MM format"
  else
    match s.data with
    | [h, _, a, b] => .ok ⟨['0', h, ':', a, b]⟩
    | [h1, h2, _, a, b] => .ok ⟨[h1, h2, ':', a, b]⟩
    | _ => .error "Time must be in HH:MM format"

/-- Claim-side reading of the time contract (C3): the strings `H:MM` or
`HH:MM` where the hour value is 0–23 and the minute is exactly two digits
with value 0–59; returns the parsed hour and minute values. -/
def specTimeParse (s : String) : Option (Nat × Nat) :=
  match s.data with
  | [h, c, a, b] =>
    if c == ':' && isDigitChar h && isDigitChar a && isDigitChar b &&
        decide (digitVal h ≤ 23) && decide (digitVal a * 10 + digitVal b ≤ 59) then
      some (digitVal h, digitVal a * 10 + digitVal b)
    else none
  | [h1, h2, c, a, b] =>
    if c == ':' && isDigitChar h1 && isDigitChar h2 && isDigitChar a && isDigitChar b &&
        decide (digitVal h1 * 10 + digitVal h2 ≤ 23) &&
        decide (digitVal a * 10 + digitVal b ≤ 59) then
      some (digitVal h1 * 10 + digitVal h2, digitVal a * 10 + digitVal b)
    else none
  | _ => none

/-! ### The Event pre-validate hook -/

/-- The state of an Event document as the pre-validate hook sees it:
the relevant fields plus the Mongoose change-tracking the hook queries
(`this.isNew`, `this.isModified('title' | 'date' | 'time')`). -/
structure EventDoc where
  title : String
  slug : String
  date : String
  time : String
  isNew : Bool
  titleModified : Bool
  dateModified : Bool
  timeModified : Bool
deriving DecidableEq

/-- The slug branch: `if ((this.isNew && !this.slug) || this.isModified('title'))`
regenerate the slug from the title (JS `!this.slug` is truthy exactly for
the empty string / absent slug). -/
def applySlug (existsColl : String → Bool) (t0 t1 t2 t3 ts : String)
    (doc : EventDoc) : EventDoc :=
  if (doc.isNew && doc.slug == "") || doc.titleModified then
    { doc with slug := genSlug existsColl t0 t1 t2 t3 ts doc.title }
  else doc

/-- The date branch: `if (this.isModified('date'))` normalize, else leave. -/
def applyDate (doc : EventDoc) : Except String EventDoc :=
  if doc.dateModified then
    (normalizeDate doc.date).map (fun d => { doc with date := d })
  else .ok doc

/-- The time branch: `if (this.isModified('time'))` normalize, else leave. -/
def applyTime (doc : EventDoc) : Except String EventDoc :=
  if doc.timeModified then
    (normalizeTime doc.time).map (fun t => { doc with time := t })
  else .ok doc

/-- Model of `EventSchema.pre('validate', ...)`: slug generation, then date
normalization, then time normalization; a thrown `Error` aborts the save. -/
def eventPreValidate (existsColl : String → Bool) (t0 t1 t2 t3 ts : String)
    (doc : EventDoc) : Except String EventDoc :=
  (applyDate (applySlug existsColl t0 t1 t2 t3 ts doc)).bind applyTime

/-! ### Mode field (`EventSchema.mode`: `lowercase: true`, enum) -/

/-- The `lowercase: true` setter on a schema path: `v.toLowerCase()`. -/
def mongooseLowercase (v : String) : String := ⟨v.data.map jsToLower⟩

/-- The value stored for `mode` (setters run before validators). -/
def modeStored (v : String) : String := mongooseLowercase v

/-- The `enum: ['online', 'offline', 'hybrid']` validator, applied to the
already-lowercased value. -/
def modeAccepted (v : String) : Bool :=
  modeStored v == "online" || modeStored v == "offline" || modeStored v == "hybrid"

/-! ### Booking email field (`BookingSchema.email`) -/

/-- The regex class `[^\s@]`. -/
def isEmailChar (c : Char) : Bool := !(isJsSpace c) && !(c == '@')

/-- Model of `/^[^\s@]+@[^\s@]+\.[^\s@]+$/.test(v)`.  The class `[^\s@]` excludes
`'@'`, so an anchored match forces the local part to be the maximal leading
run of `[^\s@]` characters, followed by `'@'`, followed by a domain of
`[^\s@]` characters containing a `'.'` that is neither its first nor its
last character. -/
def emailRegexTest (s : String) : Bool :=
  match s.data.dropWhile isEmailChar with
  | c :: dom =>
    c == '@' && !(s.data.takeWhile isEmailChar).isEmpty && dom.all isEmailChar &&
      (dom.drop 1).dropLast.contains '.'
  | [] => false

/-- The `lowercase: true, trim: true` setters on `email` (both run before
the validator; JS `trim` removes the same `\s` set on both ends). -/
def mongooseEmailSetter (v : String) : String :=
  ⟨jsTrim ((mongooseLowercase v).data)⟩

/-- The stored-or-rejected outcome for the `email` path: setters, then the
`validate` regex with its configured message. -/
def bookingEmailCheck (v : String) : Except String String :=
  let n := mongooseEmailSetter v
  if emailRegexTest n then .ok n else .error "Please provide a valid email address"

/-- Claim-side reading of the email contract as literally stated (C7):
"local-part@domain with no whitespace" — a non-empty run of non-space,
non-`@` characters, an `'@'`, and a non-empty remainder of non-space,
non-`@` characters (no dot required). -/
def specEmailBasic (s : String) : Bool :=
  match s.data.dropWhile isEmailChar with
  | c :: dom =>
    c == '@' && !(s.data.takeWhile isEmailChar).isEmpty && !dom.isEmpty &&
      dom.all isEmailChar
  | [] => false

/-- Structural (claim-side) characterization of the strings the email regex
actually accepts: `local@domain` where the domain contains an interior dot;
all three pieces are non-empty strings over `[^\s@]`. -/
def SpecEmailDotted (s : String) : Prop :=
  ∃ l a b : List Char,
    s.data = l ++ '@' :: (a ++ '.' :: b) ∧ l ≠ [] ∧ a ≠ [] ∧ b ≠ [] ∧
    (∀ c ∈ l, isEmailChar c = true) ∧ (∀ c ∈ a, isEmailChar c = true) ∧
    (∀ c ∈ b, isEmailChar c = true)

/-! ### The Booking pre-save hook (`BookingSchema.pre('save')`) -/

/-- Model of `BookingSchema.pre('save', ...)`: when `this.isModified('eventId')`, run
`await Event.exists({_id: this.eventId})` (one read query, modelled by
membership of `eventId` in the store's list of event ids) and throw if no
event matches; otherwise issue no query at all.  Returns the hook outcome
together with the number of read queries issued. -/
def bookingPreSave (eventIdModified : Bool) (eventIds : List Nat)
    (eventId : Nat) : Except String Unit × Nat :=
  if eventIdModified then
    if eventIds.contains eventId then (.ok (), 1)
    else (.error "Referenced event does not exist", 1)
  else (.ok (), 0)

/-! ### Basic character lemmas -/

/-- Reading `Char.ofNat` back on a value below the surrogate range reads back as itself. -/
theorem char_toNat_ofNat {n : Nat} (h : n < 55296) : (Char.ofNat n).toNat = n := by
  unfold Char.ofNat
  rw [dif_pos (Or.inl h)]
  rfl

/-- Characters are determined by their code points. -/
theorem char_eq_of_toNat_eq {c d : Char} (h : c.toNat = d.toNat) : c = d := by
  have hc := Char.ofNat_toNat c
  rw [h, Char.ofNat_toNat d] at hc
  exact hc.symm

/-- The ASCII lowercase image of any character is never an uppercase ASCII
letter. -/
theorem jsToLower_not_upper (c : Char) : isAsciiUpperChar (jsToLower c) = false := by
  unfold jsToLower
  by_cases h : isAsciiUpperChar c = true
  · rw [if_pos h]
    have hb : 65 ≤ c.toNat ∧ c.toNat ≤ 90 := by
      simpa [isAsciiUpperChar] using h
    have ht : (Char.ofNat (c.toNat + 32)).toNat = c.toNat + 32 :=
      char_toNat_ofNat (by omega)
    simp only [isAsciiUpperChar, ht]
    simp only [Bool.and_eq_false_iff, decide_eq_false_iff_not]
    omega
  · rw [if_neg h]
    simpa using h

/-- Characters from `[0-9a-z]` satisfy the slug character class. -/
theorem slugCharOk_of_base36 {c : Char} (h : isBase36Char c = true) :
    slugCharOk c = true := by
  simp only [isBase36Char, Bool.or_eq_true] at h
  simp only [slugCharOk, Bool.or_eq_true]
  tauto

/-- Characters from `[0-9a-z]` are not hyphens ('-' is code point 45). -/
theorem base36_not_hyphen {c : Char} (h : isBase36Char c = true) :
    (c == '-') = false := by
  by_contra hne
  have hbeq : (c == '-') = true := by simpa using hne
  have hceq : c = '-' := eq_of_beq hbeq
  subst hceq
  exact absurd h (by decide)

/-! ### C4 and C10: the simple field checks -/

/-- C4. On a Booking save, the Event existence lookup runs exactly when
`eventId` is newly set or changed (one read query then, none otherwise);
when it runs, the save is aborted with "Referenced event does not exist"
exactly when no stored event id equals the booking's `eventId`, and
proceeds otherwise. -/
theorem bookingPreSave_checks_iff_modified :
    ∀ (eventIdModified : Bool) (eventIds : List Nat) (eventId : Nat),
      (bookingPreSave eventIdModified eventIds eventId).2 =
          (if eventIdModified then 1 else 0) ∧
      ((bookingPreSave eventIdModified eventIds eventId).1 =
          .error "Referenced event does not exist" ↔
        eventIdModified = true ∧ eventId ∉ eventIds) ∧
      ((bookingPreSave eventIdModified eventIds eventId).1 = .ok () ↔
        eventIdModified = false ∨ eventId ∈ eventIds) := by
  intro m ids id
  cases m <;> by_cases h : id ∈ ids <;>
    simp [bookingPreSave, h, List.elem_iff]

/-- C10. The `mode` value is lowercased by the `lowercase: true` setter
before the `enum` membership check, so a value is accepted exactly when its
lowercase form is one of `online`/`offline`/`hybrid`, and the lowercase form
is what gets persisted; in particular `'Online'` and `'HYBRID'` are accepted
and stored as `'online'` / `'hybrid'`. -/
theorem mode_lowercased_before_enum :
    (∀ v : String, modeAccepted v = true ↔
      modeStored v = "online" ∨ modeStored v = "offline" ∨ modeStored v = "hybrid") ∧
    modeAccepted "Online" = true ∧ modeStored "Online" = "online" ∧
    modeAccepted "HYBRID" = true ∧ modeStored "HYBRID" = "hybrid" ∧
    modeAccepted "hybrid" = true ∧ modeStored "hybrid" = "hybrid" ∧
    modeAccepted "virtual" = false ∧ modeAccepted "onlines" = false := by
  refine ⟨fun v => ?_, by decide, by decide, by decide, by decide, by decide,
    by decide, by decide, by decide⟩
  simp only [modeAccepted, Bool.or_eq_true, beq_iff_eq]
  tauto

/-! ### Structural lemmas about the slug pipeline -/

/-- Glue: consing onto a list keeps `noDoubleHyphen` when either the new
head is not a hyphen or the old head is not a hyphen. -/
theorem noDoubleHyphen_cons {a : Char} {l : List Char}
    (h1 : (a == '-') = false ∨ headNotHyphen l = true)
    (h2 : noDoubleHyphen l = true) : noDoubleHyphen (a :: l) = true := by
  cases l with
  | nil => rfl
  | cons x rest =>
    simp only [noDoubleHyphen, Bool.and_eq_true, Bool.not_eq_true']
    refine ⟨?_, h2⟩
    rcases h1 with h1 | h1
    · simp [h1]
    · simp only [headNotHyphen, Bool.not_eq_true'] at h1
      simp [h1]

/-- Property `noDoubleHyphen` passes to the tail. -/
theorem noDoubleHyphen_tail {a : Char} {l : List Char}
    (h : noDoubleHyphen (a :: l) = true) : noDoubleHyphen l = true := by
  cases l with
  | nil => rfl
  | cons x rest =>
    simp only [noDoubleHyphen, Bool.and_eq_true] at h
    exact h.2

/-- A hyphen-free list trivially has no double hyphen. -/
theorem noDoubleHyphen_of_no_hyphen {l : List Char}
    (h : ∀ c ∈ l, (c == '-') = false) : noDoubleHyphen l = true := by
  induction l with
  | nil => rfl
  | cons a rest ih =>
    refine noDoubleHyphen_cons (Or.inl (h a (by simp))) (ih fun c hc => h c (by simp [hc]))

/-- A hyphen-free list does not start with a hyphen. -/
theorem headNotHyphen_of_no_hyphen {l : List Char}
    (h : ∀ c ∈ l, (c == '-') = false) : headNotHyphen l = true := by
  cases l with
  | nil => rfl
  | cons a rest => simpa [headNotHyphen] using h a (by simp)

/-- A hyphen-free list does not end with a hyphen. -/
theorem lastNotHyphen_of_no_hyphen {l : List Char}
    (h : ∀ c ∈ l, (c == '-') = false) : lastNotHyphen l = true := by
  induction l with
  | nil => rfl
  | cons a rest ih =>
    cases rest with
    | nil => simpa [lastNotHyphen] using h a (by simp)
    | cons x xs =>
      show lastNotHyphen (x :: xs) = true
      exact ih fun c hc => h c (by simp at hc ⊢; tauto)

/-- Property `lastNotHyphen` of an append is decided by the non-empty right part. -/
theorem lastNotHyphen_append {xs ys : List Char} (hy : ys ≠ []) :
    lastNotHyphen (xs ++ ys) = lastNotHyphen ys := by
  induction xs with
  | nil => rfl
  | cons a rest ih =>
    have hne : rest ++ ys ≠ [] := by
      intro hcontra
      exact hy (List.append_eq_nil.mp hcontra).2
    cases hr : rest ++ ys with
    | nil => exact absurd hr hne
    | cons z zs =>
      show lastNotHyphen (a :: (rest ++ ys)) = lastNotHyphen ys
      rw [hr]
      show lastNotHyphen (z :: zs) = lastNotHyphen ys
      rw [← hr, ih]

/-- Appending preserves `noDoubleHyphen` when the two sides do not meet
hyphen-to-hyphen. -/
theorem noDoubleHyphen_append {xs ys : List Char}
    (hx : noDoubleHyphen xs = true) (hy : noDoubleHyphen ys = true)
    (hj : lastNotHyphen xs = true ∨ headNotHyphen ys = true) :
    noDoubleHyphen (xs ++ ys) = true := by
  induction xs with
  | nil => simpa using hy
  | cons a rest ih =>
    cases rest with
    | nil =>
      refine noDoubleHyphen_cons ?_ hy
      rcases hj with hj | hj
      · exact Or.inl (by simpa [lastNotHyphen] using hj)
      · exact Or.inr hj
    | cons b l =>
      have hx' : noDoubleHyphen (b :: l) = true := noDoubleHyphen_tail hx
      have hj' : lastNotHyphen (b :: l) = true ∨ headNotHyphen ys = true := by
        rcases hj with hj | hj
        · exact Or.inl hj
        · exact Or.inr hj
      have htail := ih hx' hj'
      refine noDoubleHyphen_cons ?_ htail
      simp only [noDoubleHyphen, Bool.and_eq_true, Bool.not_eq_true',
        Bool.and_eq_false_iff] at hx
      rcases hx.1 with h | h
      · exact Or.inl h
      · exact Or.inr (by simp [headNotHyphen, h])

/-- Every character emitted by the whitespace squash is either a hyphen or a
non-whitespace character of the input. -/
theorem mem_squashSpacesAux {l : List Char} {c : Char} :
    ∀ {p : Bool}, c ∈ squashSpacesAux p l → c = '-' ∨ (c ∈ l ∧ isJsSpace c = false) := by
  induction l with
  | nil => intro p h; simp [squashSpacesAux] at h
  | cons a rest ih =>
    intro p h
    by_cases ha : isJsSpace a = true
    · cases p with
      | true =>
        simp only [squashSpacesAux, ha, if_true] at h
        rcases ih h with h | ⟨h1, h2⟩
        · exact Or.inl h
        · exact Or.inr ⟨by simp [h1], h2⟩
      | false =>
        simp only [squashSpacesAux, ha, if_true] at h
        rcases List.mem_cons.mp h with h | h
        · exact Or.inl h
        · rcases ih h with h | ⟨h1, h2⟩
          · exact Or.inl h
          · exact Or.inr ⟨by simp [h1], h2⟩
    · have ha' : isJsSpace a = false := by simpa using ha
      simp only [squashSpacesAux, ha', if_false, Bool.false_eq_true] at h
      rcases List.mem_cons.mp h with h | h
      · subst h; exact Or.inr ⟨by simp, ha'⟩
      · rcases ih h with h | ⟨h1, h2⟩
        · exact Or.inl h
        · exact Or.inr ⟨by simp [h1], h2⟩

/-- The hyphen collapse only emits characters of its input. -/
theorem mem_collapseHyphensAux {l : List Char} {c : Char} :
    ∀ {p : Bool}, c ∈ collapseHyphensAux p l → c ∈ l := by
  induction l with
  | nil => intro p h; simp [collapseHyphensAux] at h
  | cons a rest ih =>
    intro p h
    by_cases ha : (a == '-') = true
    · cases p with
      | true =>
        simp only [collapseHyphensAux, ha, if_true] at h
        exact List.mem_cons_of_mem a (ih h)
      | false =>
        simp only [collapseHyphensAux, ha, if_true] at h
        rcases List.mem_cons.mp h with h | h
        · simp [h]
        · exact List.mem_cons_of_mem a (ih h)
    · have ha' : (a == '-') = false := by simpa using ha
      simp only [collapseHyphensAux, ha', if_false, Bool.false_eq_true] at h
      rcases List.mem_cons.mp h with h | h
      · simp [h]
      · exact List.mem_cons_of_mem a (ih h)

/-- Right after a hyphen was emitted, the collapse never emits another. -/
theorem headNotHyphen_collapseHyphensAux_true {l : List Char} :
    headNotHyphen (collapseHyphensAux true l) = true := by
  induction l with
  | nil => rfl
  | cons a rest ih =>
    by_cases ha : (a == '-') = true
    · simpa only [collapseHyphensAux, ha, if_true] using ih
    · have ha' : (a == '-') = false := by simpa using ha
      simp [collapseHyphensAux, ha', headNotHyphen]

/-- The hyphen collapse leaves no two adjacent hyphens. -/
theorem noDoubleHyphen_collapseHyphensAux {l : List Char} :
    ∀ {p : Bool}, noDoubleHyphen (collapseHyphensAux p l) = true := by
  induction l with
  | nil => intro p; rfl
  | cons a rest ih =>
    intro p
    by_cases ha : (a == '-') = true
    · cases p with
      | true => simpa only [collapseHyphensAux, ha, if_true] using ih
      | false =>
        simp only [collapseHyphensAux, ha, if_true]
        exact noDoubleHyphen_cons (Or.inr headNotHyphen_collapseHyphensAux_true) ih
    · have ha' : (a == '-') = false := by simpa using ha
      simp only [collapseHyphensAux, ha', if_false, Bool.false_eq_true]
      exact noDoubleHyphen_cons (Or.inl ha') ih

/-- Trailing-hyphen removal only emits characters of its input. -/
theorem mem_dropTrailingHyphens {l : List Char} {c : Char}
    (h : c ∈ dropTrailingHyphens l) : c ∈ l := by
  induction l with
  | nil => simpa [dropTrailingHyphens] using h
  | cons a rest ih =>
    simp only [dropTrailingHyphens] at h
    split at h
    · simp at h
    · rcases List.mem_cons.mp h with h | h
      · simp [h]
      · exact List.mem_cons_of_mem a (ih h)

/-- Trailing-hyphen removal leaves no hyphen at the end. -/
theorem lastNotHyphen_dropTrailingHyphens (l : List Char) :
    lastNotHyphen (dropTrailingHyphens l) = true := by
  induction l with
  | nil => rfl
  | cons a rest ih =>
    simp only [dropTrailingHyphens]
    split
    · rfl
    · next hcond =>
      cases hr : dropTrailingHyphens rest with
      | nil =>
        rw [hr] at hcond
        simp only [List.isEmpty_nil, Bool.and_true, Bool.not_eq_true] at hcond
        simpa [lastNotHyphen] using hcond
      | cons z zs =>
        show lastNotHyphen (a :: z :: zs) = true
        show lastNotHyphen (z :: zs) = true
        rw [← hr]; exact ih

/-- Trailing-hyphen removal returns either `[]` or a list with the same
head. -/
theorem head_dropTrailingHyphens (l : List Char) :
    dropTrailingHyphens l = [] ∨ (dropTrailingHyphens l).head? = l.head? := by
  cases l with
  | nil => exact Or.inl rfl
  | cons a rest =>
    simp only [dropTrailingHyphens]
    split
    · exact Or.inl rfl
    · exact Or.inr rfl

/-- A list whose head is not a hyphen satisfies `headNotHyphen`. -/
theorem headNotHyphen_of_head? {l : List Char} {x : Char}
    (h : l.head? = some x) (hx : (x == '-') = false) : headNotHyphen l = true := by
  cases l with
  | nil => rfl
  | cons a rest =>
    simp only [List.head?_cons, Option.some.injEq] at h
    subst h
    simpa [headNotHyphen] using hx

/-- Trailing-hyphen removal preserves `noDoubleHyphen`. -/
theorem noDoubleHyphen_dropTrailingHyphens {l : List Char}
    (h : noDoubleHyphen l = true) : noDoubleHyphen (dropTrailingHyphens l) = true := by
  induction l with
  | nil => rfl
  | cons a rest ih =>
    have hrest := ih (noDoubleHyphen_tail h)
    simp only [dropTrailingHyphens]
    split
    · rfl
    · refine noDoubleHyphen_cons ?_ hrest
      rcases head_dropTrailingHyphens rest with hnil | hhead
      · rw [hnil]; exact Or.inr rfl
      · cases rest with
        | nil =>
          simp only [dropTrailingHyphens] at hhead ⊢
          exact Or.inr rfl
        | cons b l2 =>
          by_cases hab : (a == '-') = true
          · have hb : (b == '-') = false := by
              simp only [noDoubleHyphen, Bool.and_eq_true, Bool.not_eq_true',
                Bool.and_eq_false_iff] at h
              rcases h.1 with hh | hh
              · exact absurd hab (by simp [hh])
              · exact hh
            exact Or.inr (headNotHyphen_of_head? (by simp [hhead]) hb)
          · exact Or.inl (by simpa using hab)

/-- Leading-hyphen removal leaves no hyphen at the front. -/
theorem headNotHyphen_dropWhileHyphen (l : List Char) :
    headNotHyphen (l.dropWhile (fun c => c == '-')) = true := by
  induction l with
  | nil => rfl
  | cons a rest ih =>
    by_cases ha : (a == '-') = true
    · simpa [List.dropWhile_cons, ha] using ih
    · have ha' : (a == '-') = false := by simpa using ha
      simp [List.dropWhile_cons, ha', headNotHyphen]

/-- Leading-hyphen removal preserves `noDoubleHyphen`. -/
theorem noDoubleHyphen_dropWhileHyphen {l : List Char}
    (h : noDoubleHyphen l = true) :
    noDoubleHyphen (l.dropWhile (fun c => c == '-')) = true := by
  induction l with
  | nil => rfl
  | cons a rest ih =>
    by_cases ha : (a == '-') = true
    · simpa [List.dropWhile_cons, ha] using ih (noDoubleHyphen_tail h)
    · have ha' : (a == '-') = false := by simpa using ha
      simpa [List.dropWhile_cons, ha'] using h

/-- Leading-hyphen removal only emits characters of its input. -/
theorem mem_dropWhileHyphen {l : List Char} {c : Char}
    (h : c ∈ l.dropWhile (fun c => c == '-')) : c ∈ l := by
  induction l with
  | nil => simpa using h
  | cons a rest ih =>
    by_cases ha : (a == '-') = true
    · simp only [List.dropWhile_cons, ha, if_true] at h
      exact List.mem_cons_of_mem a (ih h)
    · have ha' : (a == '-') = false := by simpa using ha
      simpa [List.dropWhile_cons, ha'] using h

/-- The `^-+|-+$` strip yields a list with no leading hyphen, no trailing
hyphen, and (given its input had none) no double hyphen; its characters all
come from the input. -/
theorem trimHyphens_noDouble {l : List Char} (h : noDoubleHyphen l = true) :
    noDoubleHyphen (trimHyphens l) = true :=
  noDoubleHyphen_dropTrailingHyphens (noDoubleHyphen_dropWhileHyphen h)

theorem trimHyphens_headNot (l : List Char) : headNotHyphen (trimHyphens l) = true := by
  unfold trimHyphens
  cases hl : l.dropWhile (fun c => c == '-') with
  | nil => rfl
  | cons x xs =>
    have hdw := headNotHyphen_dropWhileHyphen l
    rw [hl] at hdw
    have hx : (x == '-') = false := by simpa [headNotHyphen] using hdw
    rcases head_dropTrailingHyphens (x :: xs) with hnil | hhead
    · rw [hnil]; rfl
    · exact headNotHyphen_of_head? (by simp [hhead]) hx

theorem trimHyphens_lastNot (l : List Char) : lastNotHyphen (trimHyphens l) = true :=
  lastNotHyphen_dropTrailingHyphens _

theorem mem_trimHyphens {l : List Char} {c : Char} (h : c ∈ trimHyphens l) : c ∈ l :=
  mem_dropWhileHyphen (mem_dropTrailingHyphens h)

/-- Every character of a generated base slug is in `[a-z0-9_-]`. -/
theorem slugBase_chars {title : String} {c : Char}
    (h : c ∈ (slugBase title).data) : slugCharOk c = true := by
  unfold slugBase at h
  have h1 : c ∈ collapseHyphens (squashSpaces (stripNonSlugChars
      (jsTrim (title.data.map jsToLower)))) := mem_trimHyphens h
  have h2 := mem_collapseHyphensAux (l := _) h1
  rcases mem_squashSpacesAux h2 with hc | ⟨h3, hns⟩
  · subst hc; rfl
  · simp only [stripNonSlugChars, List.mem_filter, Bool.or_eq_true, beq_iff_eq] at h3
    obtain ⟨h5, hkeep⟩ := h3
    have h6 : c ∈ title.data.map jsToLower := by
      unfold jsTrim at h5
      rw [List.mem_reverse] at h5
      have h5b := (List.dropWhile_sublist isJsSpace).mem h5
      rw [List.mem_reverse] at h5b
      exact (List.dropWhile_sublist isJsSpace).mem h5b
    rcases List.mem_map.mp h6 with ⟨c0, _, hc0⟩
    have hup : isAsciiUpperChar c = false := hc0 ▸ jsToLower_not_upper c0
    rcases hkeep with (hw | hs) | hh
    · have hup' : ¬ isAsciiUpperChar c = true := by simp [hup]
      simp only [isWordChar, Bool.or_eq_true, beq_iff_eq] at hw
      simp only [slugCharOk, Bool.or_eq_true, beq_iff_eq]
      tauto
    · exact absurd hs (by simp [hns])
    · simp [slugCharOk, hh]

/-- The generated base slug has no double hyphen. -/
theorem slugBase_noDouble (title : String) :
    noDoubleHyphen (slugBase title).data = true :=
  trimHyphens_noDouble noDoubleHyphen_collapseHyphensAux

/-- The generated base slug does not start with a hyphen. -/
theorem slugBase_headNot (title : String) :
    headNotHyphen (slugBase title).data = true :=
  trimHyphens_headNot _

/-- The generated base slug does not end with a hyphen. -/
theorem slugBase_lastNot (title : String) :
    lastNotHyphen (slugBase title).data = true :=
  lastNotHyphen_dropTrailingHyphens _

/-! ### Facts about the random ids, the base-36 timestamp, and appends -/

/-- Model `generateShortId` always produces a well-formed token whatever the
random samples were. -/
theorem generateShortId_valid (r : Fin 6 → Fin 36) :
    validToken (generateShortId r) = true := by
  have halpha : ∀ j : Fin shortIdAlphabet.length,
      isBase36Char (shortIdAlphabet.get j) = true := by decide
  simp only [validToken, generateShortId, List.all_eq_true, Bool.and_eq_true]
  constructor
  · rfl
  · intro c hc
    rcases List.mem_map.mp hc with ⟨i, _, hi⟩
    rw [← hi]
    exact halpha _

/-- Every character of `n.toString(36)` is in `[0-9a-z]`. -/
theorem natToBase36_chars (n : Nat) :
    (natToBase36 n).data.all isBase36Char = true := by
  have hd : ∀ d : Nat, d < 36 → isBase36Char (base36DigitChar d) = true := by
    intro d hdlt
    unfold base36DigitChar
    by_cases h10 : d < 10
    · rw [if_pos h10]
      simp only [isBase36Char, isDigitChar, char_toNat_ofNat (show 48 + d < 55296 by omega)]
      simp only [Bool.or_eq_true, Bool.and_eq_true, decide_eq_true_eq]
      omega
    · rw [if_neg h10]
      simp only [isBase36Char, isAsciiLowerChar,
        char_toNat_ofNat (show 87 + d < 55296 by omega)]
      simp only [Bool.or_eq_true, Bool.and_eq_true, decide_eq_true_eq]
      omega
  have hcore : ∀ (fuel n : Nat) (acc : List Char),
      (∀ c ∈ acc, isBase36Char c = true) →
      ∀ c ∈ natToBase36Core fuel n acc, isBase36Char c = true := by
    intro fuel
    induction fuel with
    | zero => intro n acc hacc c hc; exact hacc c hc
    | succ fuel ih =>
      intro n acc hacc c hc
      simp only [natToBase36Core] at hc
      split at hc
      · rcases List.mem_cons.mp hc with rfl | hc
        · exact hd n (by omega)
        · exact hacc c hc
      · refine ih (n / 36) _ ?_ c hc
        intro c' hc'
        rcases List.mem_cons.mp hc' with rfl | hc'
        · exact hd (n % 36) (Nat.mod_lt _ (by omega))
        · exact hacc c' hc'
  simp only [natToBase36, List.all_eq_true]
  exact hcore (n + 1) n [] (by simp)

/-- A well-formed token is non-empty and consists of `[0-9a-z]`
characters. -/
theorem validToken_props {t : String} (h : validToken t = true) :
    t.data ≠ [] ∧ ∀ c ∈ t.data, isBase36Char c = true := by
  simp only [validToken, Bool.and_eq_true, beq_iff_eq, List.all_eq_true] at h
  refine ⟨?_, h.2⟩
  intro hnil
  rw [hnil] at h
  simp at h

/-- The character data of `` `${b}-${x}` ``. -/
theorem data_hyphen_append (b x : String) :
    (b ++ "-" ++ x).data = b.data ++ '-' :: x.data := by
  simp [String.data_append]

/-- A string with non-empty data is not the empty string. -/
theorem string_ne_empty_of_data {s : String} (h : s.data ≠ []) : s ≠ "" := by
  intro heq
  rw [heq] at h
  exact h rfl

/-- Property `headNotHyphen` of an append is decided by a non-empty left part. -/
theorem headNotHyphen_append_left {xs ys : List Char}
    (h : headNotHyphen xs = true) (hx : xs ≠ []) :
    headNotHyphen (xs ++ ys) = true := by
  cases xs with
  | nil => exact absurd rfl hx
  | cons a l => simpa [headNotHyphen] using h

/-- A non-empty string has non-empty character data. -/
theorem data_ne_nil_of_ne_empty {s : String} (h : s ≠ "") : s.data ≠ [] := by
  intro hnil
  apply h
  cases s with
  | mk l =>
    simp only [String.data] at hnil
    simp [hnil]

/-- A suffixed slug on a non-empty base does not start with a hyphen. -/
theorem slugSuffix_headNot (title X : String) (hbase : slugBase title ≠ "") :
    headNotHyphen (slugBase title ++ "-" ++ X).data = true := by
  rw [data_hyphen_append]
  exact headNotHyphen_append_left (slugBase_headNot title)
    (data_ne_nil_of_ne_empty hbase)

/-- Bundle of well-formedness facts for a suffixed slug
`` `${base}-${X}` `` where `X` is a non-empty string over `[0-9a-z]`. -/
theorem slugSuffix_bundle (title X : String) (hX : X.data ≠ [])
    (hX36 : ∀ c ∈ X.data, isBase36Char c = true) :
    slugBase title ++ "-" ++ X ≠ "" ∧
    (slugBase title ++ "-" ++ X).data.all slugCharOk = true ∧
    noDoubleHyphen (slugBase title ++ "-" ++ X).data = true ∧
    lastNotHyphen (slugBase title ++ "-" ++ X).data = true ∧
    (slugBase title ≠ "" → headNotHyphen (slugBase title ++ "-" ++ X).data = true) := by
  have hTnh : ∀ c ∈ X.data, (c == '-') = false :=
    fun c hc => base36_not_hyphen (hX36 c hc)
  rw [data_hyphen_append]
  refine ⟨?_, ?_, ?_, ?_, ?_⟩
  · refine string_ne_empty_of_data ?_
    rw [data_hyphen_append]
    simp
  · simp only [List.all_eq_true]
    intro c hc
    rcases List.mem_append.mp hc with hc | hc
    · exact slugBase_chars hc
    · rcases List.mem_cons.mp hc with rfl | hc
      · rfl
      · exact slugCharOk_of_base36 (hX36 c hc)
  · have hsplit : (slugBase title).data ++ '-' :: X.data =
        ((slugBase title).data ++ ['-']) ++ X.data := by simp
    rw [hsplit]
    refine noDoubleHyphen_append ?_ (noDoubleHyphen_of_no_hyphen hTnh)
      (Or.inr (headNotHyphen_of_no_hyphen hTnh))
    exact noDoubleHyphen_append (slugBase_noDouble title) rfl
      (Or.inl (slugBase_lastNot title))
  · rw [lastNotHyphen_append (by simp)]
    cases hX' : X.data with
    | nil => exact absurd hX' hX
    | cons x xs =>
      show lastNotHyphen (x :: xs) = true
      refine lastNotHyphen_of_no_hyphen ?_
      intro c hc
      exact hTnh c (by rw [hX']; exact hc)
  · intro hb
    exact headNotHyphen_append_left (slugBase_headNot title)
      (data_ne_nil_of_ne_empty hb)

/-- A suffixed slug never equals the base candidate. -/
theorem slugSuffix_ne_candidate (title X : String) :
    slugBase title ++ "-" ++ X ≠ slugCandidate title := by
  intro heq
  have hdata := congrArg String.data heq
  rw [data_hyphen_append] at hdata
  by_cases hb : slugBase title = ""
  · rw [slugCandidate, if_pos hb, hb] at hdata
    have : (List.nil (α := Char)) ++ '-' :: X.data = "untitled".data := by
      simpa using hdata
    simp only [List.nil_append] at this
    have hhead := congrArg List.head? this
    simp at hhead
  · rw [slugCandidate, if_neg hb] at hdata
    have hlen := congrArg List.length hdata
    simp only [List.length_append, List.length_cons] at hlen
    omega

/-! ### C8, C5, C1: the slug-generation claims -/

/-- C8. One slug derivation issues at most 4 collision-check queries
(1 base check + at most 3 retries), and the hook stops at the first
non-colliding candidate of the sequence
`candidate, base-t0, base-t1, base-t2`; if all four collide, the timestamp
fallback is adopted with the query count still at 4 (no further check). -/
theorem slug_retry_query_bound :
    ∀ (existsColl : String → Bool) (t0 t1 t2 t3 ts title : String),
      (genSlugCount existsColl t0 t1 t2 t3 ts title).2 ≤ 4 ∧
      (existsColl (slugCandidate title) = false →
        genSlugCount existsColl t0 t1 t2 t3 ts title = (slugCandidate title, 1)) ∧
      (existsColl (slugCandidate title) = true →
        existsColl (slugBase title ++ "-" ++ t0) = false →
        genSlugCount existsColl t0 t1 t2 t3 ts title = (slugBase title ++ "-" ++ t0, 2)) ∧
      (existsColl (slugCandidate title) = true →
        existsColl (slugBase title ++ "-" ++ t0) = true →
        existsColl (slugBase title ++ "-" ++ t1) = false →
        genSlugCount existsColl t0 t1 t2 t3 ts title = (slugBase title ++ "-" ++ t1, 3)) ∧
      (existsColl (slugCandidate title) = true →
        existsColl (slugBase title ++ "-" ++ t0) = true →
        existsColl (slugBase title ++ "-" ++ t1) = true →
        existsColl (slugBase title ++ "-" ++ t2) = false →
        genSlugCount existsColl t0 t1 t2 t3 ts title = (slugBase title ++ "-" ++ t2, 4)) ∧
      (existsColl (slugCandidate title) = true →
        existsColl (slugBase title ++ "-" ++ t0) = true →
        existsColl (slugBase title ++ "-" ++ t1) = true →
        existsColl (slugBase title ++ "-" ++ t2) = true →
        genSlugCount existsColl t0 t1 t2 t3 ts title =
          (slugBase title ++ "-" ++ ts ++ t3, 4)) := by
  intro existsColl t0 t1 t2 t3 ts title
  refine ⟨?_, ?_, ?_, ?_, ?_, ?_⟩
  · unfold genSlugCount
    by_cases hb : existsColl (slugCandidate title) = false <;>
      by_cases h0 : existsColl (slugBase title ++ "-" ++ t0) = false <;>
      by_cases h1 : existsColl (slugBase title ++ "-" ++ t1) = false <;>
      by_cases h2 : existsColl (slugBase title ++ "-" ++ t2) = false <;>
      simp [hb, h0, h1, h2]
  · intro hb; simp [genSlugCount, hb]
  · intro hb h0; simp [genSlugCount, hb, h0]
  · intro hb h0 h1; simp [genSlugCount, hb, h0, h1]
  · intro hb h0 h1 h2; simp [genSlugCount, hb, h0, h1, h2]
  · intro hb h0 h1 h2; simp [genSlugCount, hb, h0, h1, h2]

/-- Witness for C8: with only `my-event` taken in the store, deriving a slug
for the same title checks the base candidate, collides, then succeeds on the
first randomized retry — two queries in total. -/
theorem slug_retry_query_bound_witness :
    genSlugCount (fun s => s == "my-event") "a1b2c3" "d4e5f6" "g7h8i9" "j0k1l2"
        "k3x" "My Event" = ("my-event-a1b2c3", 2) := by
  have h := (slug_retry_query_bound (fun s => s == "my-event") "a1b2c3" "d4e5f6"
    "g7h8i9" "j0k1l2" "k3x" "My Event").2.2.1 (by decide) (by decide)
  rw [h]
  decide

/-- C5 counterexample.  The claim describes the retry slugs as the *base
candidate* (the spec's step-1 result, with the `untitled` fallback applied)
plus a hyphenated suffix.  For a title with no word characters the hook's
retries use the raw, pre-fallback `base`, which is empty: with `untitled`
already taken and title `"!!!"`, the assigned slug is `"-aaaaaa"`, which
starts with `'-'`, while every string extending the base candidate
`"untitled"` starts with `'u'`. -/
theorem slug_collision_emptybase_cex :
    slugCandidate "!!!" = "untitled" ∧
    genSlug (fun s => s == "untitled") "aaaaaa" "bbbbbb" "cccccc" "dddddd"
        "k3x" "!!!" = "-aaaaaa" ∧
    ("-aaaaaa" : String).data.head? = some '-' ∧
    ("untitled" : String).data.head? = some 'u' := by
  exact ⟨by decide, by decide, by decide, by decide⟩

/-- C5 (amended).  If the store already has an event whose slug equals
the base candidate, the assigned slug differs from the base candidate and is
either the raw base (which is empty when the title has no word characters)
plus a hyphen plus one of the 6-character `[0-9a-z]` tokens, or the
timestamp fallback `base + '-' + ts + token`; the fallback is adopted, with
no further collision check, exactly when all three randomized retries
collide. -/
theorem slug_collision_forces_suffix (existsColl : String → Bool)
    (t0 t1 t2 t3 ts title : String)
    (h0 : validToken t0 = true) (h1 : validToken t1 = true)
    (h2 : validToken t2 = true) (h3 : validToken t3 = true)
    (hts : ts.data.all isBase36Char = true)
    (hcoll : existsColl (slugCandidate title) = true) :
    genSlug existsColl t0 t1 t2 t3 ts title ≠ slugCandidate title ∧
    (genSlug existsColl t0 t1 t2 t3 ts title = slugBase title ++ "-" ++ t0 ∨
     genSlug existsColl t0 t1 t2 t3 ts title = slugBase title ++ "-" ++ t1 ∨
     genSlug existsColl t0 t1 t2 t3 ts title = slugBase title ++ "-" ++ t2 ∨
     genSlug existsColl t0 t1 t2 t3 ts title = slugBase title ++ "-" ++ ts ++ t3) ∧
    (existsColl (slugBase title ++ "-" ++ t0) = true →
     existsColl (slugBase title ++ "-" ++ t1) = true →
     existsColl (slugBase title ++ "-" ++ t2) = true →
     genSlug existsColl t0 t1 t2 t3 ts title = slugBase title ++ "-" ++ ts ++ t3) := by
  have hb : ¬ existsColl (slugCandidate title) = false := by simp [hcoll]
  refine ⟨?_, ?_, ?_⟩
  · simp only [genSlug, genSlugCount]
    rw [if_neg hb]
    by_cases ha0 : existsColl (slugBase title ++ "-" ++ t0) = false
    · rw [if_pos ha0]; exact slugSuffix_ne_candidate title t0
    · rw [if_neg ha0]
      by_cases ha1 : existsColl (slugBase title ++ "-" ++ t1) = false
      · rw [if_pos ha1]; exact slugSuffix_ne_candidate title t1
      · rw [if_neg ha1]
        by_cases ha2 : existsColl (slugBase title ++ "-" ++ t2) = false
        · rw [if_pos ha2]; exact slugSuffix_ne_candidate title t2
        · rw [if_neg ha2]
          have hne := slugSuffix_ne_candidate title (ts ++ t3)
          rw [← String.append_assoc] at hne
          exact hne
  · simp only [genSlug, genSlugCount]
    by_cases ha0 : existsColl (slugBase title ++ "-" ++ t0) = false
    · simp [hb, ha0]
    · by_cases ha1 : existsColl (slugBase title ++ "-" ++ t1) = false
      · simp [hb, ha0, ha1]
      · by_cases ha2 : existsColl (slugBase title ++ "-" ++ t2) = false
        · simp [hb, ha0, ha1, ha2]
        · simp only [hb, ha0, ha1, ha2, if_false]
          right; right; right
          simp [String.append_assoc]
  · intro hc0 hc1 hc2
    have hb0 : ¬ existsColl (slugBase title ++ "-" ++ t0) = false := by simp [hc0]
    have hb1 : ¬ existsColl (slugBase title ++ "-" ++ t1) = false := by simp [hc1]
    have hb2 : ¬ existsColl (slugBase title ++ "-" ++ t2) = false := by simp [hc2]
    simp [genSlug, genSlugCount, hb, hb0, hb1, hb2]

/-- Witness for C5: store contains `my-event`, the new event has the same
title; the hook picks the first randomized retry candidate. -/
theorem slug_collision_forces_suffix_witness :
    genSlug (fun s => s == "my-event") "a1b2c3" "d4e5f6" "g7h8i9" "j0k1l2" "k3x"
        "My Event" ≠ slugCandidate "My Event" ∧
    (genSlug (fun s => s == "my-event") "a1b2c3" "d4e5f6" "g7h8i9" "j0k1l2" "k3x"
        "My Event" = slugBase "My Event" ++ "-" ++ "a1b2c3" ∨
     genSlug (fun s => s == "my-event") "a1b2c3" "d4e5f6" "g7h8i9" "j0k1l2" "k3x"
        "My Event" = slugBase "My Event" ++ "-" ++ "d4e5f6" ∨
     genSlug (fun s => s == "my-event") "a1b2c3" "d4e5f6" "g7h8i9" "j0k1l2" "k3x"
        "My Event" = slugBase "My Event" ++ "-" ++ "g7h8i9" ∨
     genSlug (fun s => s == "my-event") "a1b2c3" "d4e5f6" "g7h8i9" "j0k1l2" "k3x"
        "My Event" = slugBase "My Event" ++ "-" ++ "k3x" ++ "j0k1l2") ∧
    ((fun s => s == "my-event") (slugBase "My Event" ++ "-" ++ "a1b2c3") = true →
     (fun s => s == "my-event") (slugBase "My Event" ++ "-" ++ "d4e5f6") = true →
     (fun s => s == "my-event") (slugBase "My Event" ++ "-" ++ "g7h8i9") = true →
     genSlug (fun s => s == "my-event") "a1b2c3" "d4e5f6" "g7h8i9" "j0k1l2" "k3x"
        "My Event" = slugBase "My Event" ++ "-" ++ "k3x" ++ "j0k1l2") :=
  slug_collision_forces_suffix (fun s => s == "my-event") "a1b2c3" "d4e5f6"
    "g7h8i9" "j0k1l2" "k3x" "My Event" (by decide) (by decide) (by decide)
    (by decide) (by decide) (by decide)

/-- C1 counterexample.  JS `\w` keeps underscores, so the title `"_"`
yields the slug `"_"`, accepted without any fallback or suffix — but `'_'`
is not in the claimed character set `[a-z0-9-]`. -/
theorem slug_charset_claim_cex :
    genSlug (fun _ => false) "aaaaaa" "bbbbbb" "cccccc" "dddddd" "k3x" "_" = "_" ∧
    ("_" : String).data.all
      (fun c => isAsciiLowerChar c || isDigitChar c || c == '-') = false :=
  ⟨by decide, by decide⟩

/-- C1 (amended).  For every title and store state, the slug derived by
the pre-validate hook (with well-formed random tokens and a base-36
timestamp) is non-empty, consists only of characters from `[a-z0-9_-]`
(underscores are word characters and survive the strip), has no trailing
hyphen and no run of two or more hyphens; it also has no leading hyphen,
except when the base candidate is empty and a collision on `untitled`
forces a suffix, in which case the retry slugs are built on the raw empty
base and start with a hyphen. -/
theorem slug_wellformed (existsColl : String → Bool) (t0 t1 t2 t3 ts title : String)
    (h0 : validToken t0 = true) (h1 : validToken t1 = true)
    (h2 : validToken t2 = true) (h3 : validToken t3 = true)
    (hts : ts.data.all isBase36Char = true) :
    genSlug existsColl t0 t1 t2 t3 ts title ≠ "" ∧
    (genSlug existsColl t0 t1 t2 t3 ts title).data.all slugCharOk = true ∧
    noDoubleHyphen (genSlug existsColl t0 t1 t2 t3 ts title).data = true ∧
    lastNotHyphen (genSlug existsColl t0 t1 t2 t3 ts title).data = true ∧
    (headNotHyphen (genSlug existsColl t0 t1 t2 t3 ts title).data = true ∨
      (slugBase title = "" ∧ existsColl "untitled" = true)) := by
  simp only [genSlug, genSlugCount]
  by_cases hb : existsColl (slugCandidate title) = false
  · rw [if_pos hb]
    by_cases hbase : slugBase title = ""
    · rw [slugCandidate, if_pos hbase]
      exact ⟨by decide, by decide, by decide, by decide, Or.inl (by decide)⟩
    · rw [slugCandidate, if_neg hbase]
      refine ⟨hbase, ?_, slugBase_noDouble title, slugBase_lastNot title,
        Or.inl (slugBase_headNot title)⟩
      simp only [List.all_eq_true]
      intro c hc
      exact slugBase_chars hc
  · rw [if_neg hb]
    have hbT : existsColl (slugCandidate title) = true := by
      simpa using hb
    have hhead : ∀ X : String,
        headNotHyphen (slugBase title ++ "-" ++ X).data = true ∨
          (slugBase title = "" ∧ existsColl "untitled" = true) := by
      intro X
      by_cases hbase : slugBase title = ""
      · refine Or.inr ⟨hbase, ?_⟩
        rw [slugCandidate, if_pos hbase] at hbT
        exact hbT
      · exact Or.inl (slugSuffix_headNot title X hbase)
    have hbundle : ∀ X : String, X.data ≠ [] →
        (∀ c ∈ X.data, isBase36Char c = true) →
        (slugBase title ++ "-" ++ X ≠ "" ∧
          (slugBase title ++ "-" ++ X).data.all slugCharOk = true ∧
          noDoubleHyphen (slugBase title ++ "-" ++ X).data = true ∧
          lastNotHyphen (slugBase title ++ "-" ++ X).data = true ∧
          (headNotHyphen (slugBase title ++ "-" ++ X).data = true ∨
            (slugBase title = "" ∧ existsColl "untitled" = true))) := by
      intro X hX h36
      obtain ⟨p1, p2, p3, p4, _⟩ := slugSuffix_bundle title X hX h36
      exact ⟨p1, p2, p3, p4, hhead X⟩
    by_cases ha0 : existsColl (slugBase title ++ "-" ++ t0) = false
    · rw [if_pos ha0]
      exact hbundle t0 (validToken_props h0).1 (validToken_props h0).2
    · rw [if_neg ha0]
      by_cases ha1 : existsColl (slugBase title ++ "-" ++ t1) = false
      · rw [if_pos ha1]
        exact hbundle t1 (validToken_props h1).1 (validToken_props h1).2
      · rw [if_neg ha1]
        by_cases ha2 : existsColl (slugBase title ++ "-" ++ t2) = false
        · rw [if_pos ha2]
          exact hbundle t2 (validToken_props h2).1 (validToken_props h2).2
        · rw [if_neg ha2]
          have hX : (ts ++ t3).data ≠ [] := by
            rw [String.data_append]
            intro hcontra
            exact (validToken_props h3).1 (List.append_eq_nil.mp hcontra).2
          have h36 : ∀ c ∈ (ts ++ t3).data, isBase36Char c = true := by
            rw [String.data_append]
            intro c hc
            rcases List.mem_append.mp hc with hc | hc
            · exact (List.all_eq_true.mp hts) c hc
            · exact (validToken_props h3).2 c hc
          have hres := hbundle (ts ++ t3) hX h36
          rw [← String.append_assoc] at hres
          exact hres

/-- Witness for C1: a collision-free store and the title `"Hello  World!"`
give the well-formed slug `hello-world`. -/
theorem slug_wellformed_witness :
    genSlug (fun _ => false) "a1b2c3" "d4e5f6" "g7h8i9" "j0k1l2" "k3x"
        "Hello  World!" ≠ "" ∧
    (genSlug (fun _ => false) "a1b2c3" "d4e5f6" "g7h8i9" "j0k1l2" "k3x"
        "Hello  World!").data.all slugCharOk = true ∧
    noDoubleHyphen (genSlug (fun _ => false) "a1b2c3" "d4e5f6" "g7h8i9" "j0k1l2"
        "k3x" "Hello  World!").data = true ∧
    lastNotHyphen (genSlug (fun _ => false) "a1b2c3" "d4e5f6" "g7h8i9" "j0k1l2"
        "k3x" "Hello  World!").data = true ∧
    (headNotHyphen (genSlug (fun _ => false) "a1b2c3" "d4e5f6" "g7h8i9" "j0k1l2"
        "k3x" "Hello  World!").data = true ∨
      (slugBase "Hello  World!" = "" ∧ (fun _ => false) "untitled" = true)) :=
  slug_wellformed (fun _ => false) "a1b2c3" "d4e5f6" "g7h8i9" "j0k1l2" "k3x"
    "Hello  World!" (by decide) (by decide) (by decide) (by decide) (by decide)

/-! ### C6: the slug frame property -/

/-- The date branch never touches the slug field. -/
theorem applyDate_slug {doc doc' : EventDoc} (h : applyDate doc = .ok doc') :
    doc'.slug = doc.slug := by
  unfold applyDate at h
  split at h
  · cases hd : normalizeDate doc.date with
    | error e => rw [hd] at h; simp [Except.map] at h
    | ok d =>
      rw [hd] at h
      simp only [Except.map, Except.ok.injEq] at h
      rw [← h]
  · simp only [Except.ok.injEq] at h
    rw [← h]

/-- The time branch never touches the slug field. -/
theorem applyTime_slug {doc doc' : EventDoc} (h : applyTime doc = .ok doc') :
    doc'.slug = doc.slug := by
  unfold applyTime at h
  split at h
  · cases hd : normalizeTime doc.time with
    | error e => rw [hd] at h; simp [Except.map] at h
    | ok t =>
      rw [hd] at h
      simp only [Except.map, Except.ok.injEq] at h
      rw [← h]
  · simp only [Except.ok.injEq] at h
    rw [← h]

/-- C6. If the title is not modified and the record is not a new record
missing a slug, a successful run of the pre-validate hook leaves the slug
field exactly as it was. -/
theorem slug_unmodified_frame (existsColl : String → Bool) (t0 t1 t2 t3 ts : String)
    (doc doc' : EventDoc)
    (ht : doc.titleModified = false)
    (hn : (doc.isNew && doc.slug == "") = false)
    (h : eventPreValidate existsColl t0 t1 t2 t3 ts doc = .ok doc') :
    doc'.slug = doc.slug := by
  unfold eventPreValidate at h
  have hs : applySlug existsColl t0 t1 t2 t3 ts doc = doc := by
    unfold applySlug
    rw [if_neg]
    simp [hn, ht]
  rw [hs] at h
  cases hd : applyDate doc with
  | error e => rw [hd] at h; simp [Except.bind] at h
  | ok mid =>
    rw [hd] at h
    simp only [Except.bind] at h
    have h1 := applyDate_slug hd
    have h2 := applyTime_slug h
    rw [h2, h1]

/-- Witness for C6: a save that only re-normalizes a modified date (which
even changes the date field) leaves the assigned slug `my-event` intact. -/
theorem slug_unmodified_frame_witness :
    eventPreValidate (fun _ => false) "" "" "" "" ""
        (⟨"Conf", "my-event", "0924-05-05", "09:05", false, false, true, false⟩ : EventDoc) =
      .ok (⟨"Conf", "my-event", "924-05-05", "09:05", false, false, true, false⟩ : EventDoc) ∧
    (⟨"Conf", "my-event", "924-05-05", "09:05", false, false, true, false⟩ : EventDoc).slug =
      (⟨"Conf", "my-event", "0924-05-05", "09:05", false, false, true, false⟩ : EventDoc).slug :=
  ⟨by decide,
    slug_unmodified_frame (fun _ => false) "" "" "" "" "" _ _ rfl rfl (by decide)⟩

/-! ### Calendar lemmas for the `Date.UTC` round-trip check -/

/-- Every month has at least one day. -/
theorem daysInMonth_pos (y m : Nat) : 1 ≤ daysInMonth y m := by
  unfold daysInMonth
  split
  · split <;> omega
  · split <;> omega

/-- Unfolding lemma for `nextDay` on an explicit triple. -/
theorem nextDay_def (y m d : Nat) :
    nextDay (y, m, d) =
      if d < daysInMonth y m then (y, m, d + 1)
      else if m < 12 then (y, m + 1, 1) else (y + 1, 1, 1) := rfl

/-- Stepping a day forward preserves the calendar invariant. -/
theorem nextDay_valid {t : Nat × Nat × Nat} (h : ValidDay t) :
    ValidDay (nextDay t) := by
  obtain ⟨y, m, d⟩ := t
  simp only [ValidDay] at h
  obtain ⟨h1, h2, h3, h4⟩ := h
  rw [nextDay_def]
  split
  · next hlt => simp only [ValidDay]; exact ⟨h1, h2, by omega, by omega⟩
  · split
    · simp only [ValidDay]
      exact ⟨by omega, by omega, by omega, daysInMonth_pos _ _⟩
    · simp only [ValidDay]
      exact ⟨by omega, by omega, by omega, daysInMonth_pos _ _⟩

/-- Adding days preserves the calendar invariant. -/
theorem addDays_valid {t : Nat × Nat × Nat} (n : Nat) (h : ValidDay t) :
    ValidDay (addDays n t) := by
  induction n generalizing t with
  | zero => exact h
  | succ n ih => exact ih (nextDay_valid h)

/-- Stepping a day forward never decreases the month counter of a valid
calendar position. -/
theorem monthIdx_nextDay {t : Nat × Nat × Nat} (h : ValidDay t) :
    monthIdx t ≤ monthIdx (nextDay t) := by
  obtain ⟨y, m, d⟩ := t
  simp only [ValidDay] at h
  rw [nextDay_def]
  split
  · simp [monthIdx]
  · split <;> simp [monthIdx] <;> omega

/-- Adding days never decreases the month counter of a valid calendar
position. -/
theorem monthIdx_addDays (n : Nat) {t : Nat × Nat × Nat} (h : ValidDay t) :
    monthIdx t ≤ monthIdx (addDays n t) := by
  induction n generalizing t with
  | zero => exact Nat.le_refl _
  | succ n ih => exact (monthIdx_nextDay h).trans (ih (nextDay_valid h))

/-- Adding days within the current month just moves the day-of-month. -/
theorem addDays_in_month {y m : Nat} (n : Nat) :
    ∀ d, 1 ≤ d → d + n ≤ daysInMonth y m → addDays n (y, m, d) = (y, m, d + n) := by
  induction n with
  | zero => intro d _ _; rfl
  | succ n ih =>
    intro d hd hle
    show addDays n (nextDay (y, m, d)) = (y, m, d + (n + 1))
    rw [nextDay_def, if_pos (by omega : d < daysInMonth y m)]
    have hn := ih (d + 1) (by omega) (by omega)
    rw [hn]
    have : d + 1 + n = d + (n + 1) := by omega
    rw [this]

/-- Function `addDays` splits over addition of the day counts. -/
theorem addDays_add (a b : Nat) (t : Nat × Nat × Nat) :
    addDays (a + b) t = addDays b (addDays a t) := by
  induction a generalizing t with
  | zero => rw [Nat.zero_add]; rfl
  | succ a ih =>
    have h1 : a + 1 + b = (a + b) + 1 := by omega
    rw [h1]
    show addDays (a + b) (nextDay t) = addDays b (addDays a (nextDay t))
    exact ih (nextDay t)

/-- Day 1 of any month with index 1–12 is a valid calendar position. -/
theorem startDay_valid {y m : Nat} (h1 : 1 ≤ m) (h2 : m ≤ 12) :
    ValidDay (y, m, 1) := by
  simp only [ValidDay]
  exact ⟨h1, h2, Nat.le_refl 1, daysInMonth_pos y m⟩

/-- Starting at day 1 of a month, adding a day count beyond the end of that
month lands strictly past it — never back on `(y, m, d)`. -/
theorem addDays_overflow_ne {y m d : Nat} (h1 : 1 ≤ m) (h2 : m ≤ 12)
    (hover : daysInMonth y m < d) :
    addDays (d - 1) (y, m, 1) ≠ (y, m, d) := by
  intro heq
  set dim := daysInMonth y m with hdim
  have hpos : 1 ≤ dim := daysInMonth_pos y m
  have hsplit : d - 1 = dim + (d - 1 - dim) := by omega
  rw [hsplit, addDays_add] at heq
  have hroll : addDays dim (y, m, 1) =
      (if m < 12 then (y, m + 1, 1) else (y + 1, 1, 1)) := by
    have hsub : dim = (dim - 1) + 1 := by omega
    rw [hsub, addDays_add, addDays_in_month (dim - 1) 1 (by omega) (by omega)]
    show nextDay (y, m, 1 + (dim - 1)) = _
    rw [nextDay_def, if_neg (by omega : ¬ 1 + (dim - 1) < daysInMonth y m)]
  have hmi : y * 12 + m + 1 ≤
      monthIdx (addDays (d - 1 - dim) (addDays dim (y, m, 1))) := by
    refine le_trans ?_ (monthIdx_addDays _ (addDays_valid _ (startDay_valid h1 h2)))
    rw [hroll]
    split <;> simp [monthIdx] <;> omega
  rw [heq] at hmi
  simp [monthIdx] at hmi

/-- For a year in 100–9999 and month in 1–12, the `Date.UTC` month
normalization is trivial. -/
theorem jsUTCRoundTrip_start {y m d : Nat} (h100 : 100 ≤ y) (h1 : 1 ≤ m)
    (h2 : m ≤ 12) :
    jsUTCRoundTrip y m d =
      (if d = 0 then prevDayFromFirst y m else addDays (d - 1) (y, m, 1)) := by
  simp only [jsUTCRoundTrip]
  rw [if_neg (by omega : ¬ y ≤ 99)]
  have hdiv : (y * 12 + m - 1) / 12 = y := by omega
  have hmod : (y * 12 + m - 1) % 12 + 1 = m := by omega
  rw [hdiv, hmod]

/-- The `Date.UTC` reconstruction of a valid in-range date is the identity. -/
theorem jsUTCRoundTrip_valid {y m d : Nat} (h100 : 100 ≤ y) (h1 : 1 ≤ m)
    (h2 : m ≤ 12) (h3 : 1 ≤ d) (h4 : d ≤ daysInMonth y m) :
    jsUTCRoundTrip y m d = (y, m, d) := by
  rw [jsUTCRoundTrip_start h100 h1 h2, if_neg (by omega : ¬ d = 0)]
  have := addDays_in_month (y := y) (m := m) (d - 1) 1 (by omega) (by omega)
  rw [this]
  congr 1
  simp
  omega

/-- Years 0–99 are read as 1900–1999 by `Date.UTC`, so the round-trip check
always fails for them. -/
theorem jsUTCRoundTrip_year_low {y m d : Nat} (hy : y ≤ 99) :
    jsUTCRoundTrip y m d ≠ (y, m, d) := by
  intro heq
  simp only [jsUTCRoundTrip] at heq
  rw [if_pos hy] at heq
  set mt := (1900 + y) * 12 + m - 1 with hmt
  have hy' : 1899 + y ≤ mt / 12 := by omega
  have hm' : 1 ≤ mt % 12 + 1 ∧ mt % 12 + 1 ≤ 12 := by omega
  split at heq
  · unfold prevDayFromFirst at heq
    split at heq <;>
    · have := congrArg Prod.fst heq
      simp at this
      omega
  · have hyear : mt / 12 ≤ (addDays (d - 1) (mt / 12, mt % 12 + 1, 1)).1 := by
      have hv : ValidDay (addDays (d - 1) (mt / 12, mt % 12 + 1, 1)) :=
        addDays_valid _ (startDay_valid hm'.1 hm'.2)
      have hmi := monthIdx_addDays (d - 1) (startDay_valid (y := mt / 12) hm'.1 hm'.2)
      unfold monthIdx at hmi
      simp only [ValidDay] at hv
      obtain ⟨hv1, hv2, _, _⟩ := hv
      simp at hmi
      omega
    rw [heq] at hyear
    simp at hyear
    omega

/-- A month component of 0 never round-trips. -/
theorem jsUTCRoundTrip_month_zero {y d : Nat} (h100 : 100 ≤ y) :
    jsUTCRoundTrip y 0 d ≠ (y, 0, d) := by
  intro heq
  simp only [jsUTCRoundTrip] at heq
  rw [if_neg (by omega : ¬ y ≤ 99)] at heq
  have hdiv : (y * 12 + 0 - 1) / 12 = y - 1 := by omega
  have hmod : (y * 12 + 0 - 1) % 12 + 1 = 12 := by omega
  rw [hdiv, hmod] at heq
  split at heq
  · unfold prevDayFromFirst at heq
    rw [if_neg (by omega : ¬ (12 : Nat) = 1)] at heq
    have := congrArg (fun t : Nat × Nat × Nat => t.2.1) heq
    simp at this
  · have hv : ValidDay (addDays (d - 1) (y - 1, 12, 1)) :=
      addDays_valid _ (startDay_valid (by omega) (by omega))
    rw [heq] at hv
    simp only [ValidDay] at hv
    obtain ⟨hv1, _, _, _⟩ := hv
    simp at hv1

/-- A month component of 13 or more never round-trips. -/
theorem jsUTCRoundTrip_month_big {y m d : Nat} (h100 : 100 ≤ y) (hm : 13 ≤ m) :
    jsUTCRoundTrip y m d ≠ (y, m, d) := by
  intro heq
  simp only [jsUTCRoundTrip] at heq
  rw [if_neg (by omega : ¬ y ≤ 99)] at heq
  set mt := y * 12 + m - 1 with hmt
  have hm' : 1 ≤ mt % 12 + 1 ∧ mt % 12 + 1 ≤ 12 := by omega
  split at heq
  · unfold prevDayFromFirst at heq
    split at heq <;>
    · have := congrArg (fun t : Nat × Nat × Nat => t.2.1) heq
      simp at this
      omega
  · have hv : ValidDay (addDays (d - 1) (mt / 12, mt % 12 + 1, 1)) :=
      addDays_valid _ (startDay_valid hm'.1 hm'.2)
    rw [heq] at hv
    simp only [ValidDay] at hv
    obtain ⟨_, hv2, _, _⟩ := hv
    omega

/-- A day component of 0 never round-trips. -/
theorem jsUTCRoundTrip_day_zero {y m : Nat} (h100 : 100 ≤ y) (h1 : 1 ≤ m)
    (h2 : m ≤ 12) :
    jsUTCRoundTrip y m 0 ≠ (y, m, 0) := by
  intro heq
  rw [jsUTCRoundTrip_start h100 h1 h2, if_pos rfl] at heq
  unfold prevDayFromFirst at heq
  split at heq
  · have := congrArg (fun t : Nat × Nat × Nat => t.2.2) heq
    simp at this
  · have := congrArg (fun t : Nat × Nat × Nat => t.2.2) heq
    simp at this
    have := daysInMonth_pos y (m - 1)
    omega

/-- A day component beyond the month length never round-trips. -/
theorem jsUTCRoundTrip_day_big {y m d : Nat} (h100 : 100 ≤ y) (h1 : 1 ≤ m)
    (h2 : m ≤ 12) (hd : daysInMonth y m < d) :
    jsUTCRoundTrip y m d ≠ (y, m, d) := by
  have hpos := daysInMonth_pos y m
  rw [jsUTCRoundTrip_start h100 h1 h2, if_neg (by omega : ¬ d = 0)]
  exact addDays_overflow_ne h1 h2 hd

/-- The `Date.UTC` round-trip check succeeds exactly on in-range dates with
year at least 100. -/
theorem jsUTCRoundTrip_eq_iff {y m d : Nat} :
    jsUTCRoundTrip y m d = (y, m, d) ↔
      (100 ≤ y ∧ 1 ≤ m ∧ m ≤ 12 ∧ 1 ≤ d ∧ d ≤ daysInMonth y m) := by
  constructor
  · intro h
    by_cases hy : y ≤ 99
    · exact absurd h (jsUTCRoundTrip_year_low hy)
    · have h100 : 100 ≤ y := by omega
      by_cases hm0 : m = 0
      · subst hm0; exact absurd h (jsUTCRoundTrip_month_zero h100)
      · by_cases hmb : 13 ≤ m
        · exact absurd h (jsUTCRoundTrip_month_big h100 hmb)
        · have h1 : 1 ≤ m := by omega
          have h2 : m ≤ 12 := by omega
          by_cases hd0 : d = 0
          · subst hd0; exact absurd h (jsUTCRoundTrip_day_zero h100 h1 h2)
          · by_cases hdb : daysInMonth y m < d
            · exact absurd h (jsUTCRoundTrip_day_big h100 h1 h2 hdb)
            · exact ⟨h100, h1, h2, by omega, by omega⟩
  · rintro ⟨h100, h1, h2, h3, h4⟩
    exact jsUTCRoundTrip_valid h100 h1 h2 h3 h4

/-! ### The date regex and the date claims (C2, C9) -/

/-- Digits have value at most 9 and code point in 48–57. -/
theorem digitVal_le {c : Char} (h : isDigitChar c = true) :
    digitVal c ≤ 9 ∧ 48 ≤ c.toNat ∧ c.toNat ≤ 57 := by
  simp only [isDigitChar, Bool.and_eq_true, decide_eq_true_eq] at h
  unfold digitVal
  omega

/-- Structure of a successful date-regex match: ten characters
`\d\d\d\d-\d\d-\d\d`, with the parsed values. -/
theorem parseYMD_shape {s : String} {y m d : Nat}
    (h : parseYMD s = some (y, m, d)) :
    ∃ y1 y2 y3 y4 m1 m2 d1 d2 : Char,
      s.data = [y1, y2, y3, y4, '-', m1, m2, '-', d1, d2] ∧
      isDigitChar y1 = true ∧ isDigitChar y2 = true ∧ isDigitChar y3 = true ∧
      isDigitChar y4 = true ∧ isDigitChar m1 = true ∧ isDigitChar m2 = true ∧
      isDigitChar d1 = true ∧ isDigitChar d2 = true ∧
      y = digitVal y1 * 1000 + digitVal y2 * 100 + digitVal y3 * 10 + digitVal y4 ∧
      m = digitVal m1 * 10 + digitVal m2 ∧
      d = digitVal d1 * 10 + digitVal d2 := by
  obtain ⟨l⟩ := s
  rcases l with _ | ⟨c0, l⟩; · simp [parseYMD] at h
  rcases l with _ | ⟨c1, l⟩; · simp [parseYMD] at h
  rcases l with _ | ⟨c2, l⟩; · simp [parseYMD] at h
  rcases l with _ | ⟨c3, l⟩; · simp [parseYMD] at h
  rcases l with _ | ⟨c4, l⟩; · simp [parseYMD] at h
  rcases l with _ | ⟨c5, l⟩; · simp [parseYMD] at h
  rcases l with _ | ⟨c6, l⟩; · simp [parseYMD] at h
  rcases l with _ | ⟨c7, l⟩; · simp [parseYMD] at h
  rcases l with _ | ⟨c8, l⟩; · simp [parseYMD] at h
  rcases l with _ | ⟨c9, l⟩; · simp [parseYMD] at h
  rcases l with _ | ⟨c10, l⟩
  · simp only [parseYMD] at h
    split at h
    · next hcond =>
      simp only [Bool.and_eq_true, beq_iff_eq] at hcond
      obtain ⟨⟨⟨⟨⟨⟨⟨⟨⟨hy1, hy2⟩, hy3⟩, hy4⟩, hc4⟩, hm1⟩, hm2⟩, hc7⟩, hd1⟩, hd2⟩ := hcond
      simp only [Option.some.injEq, Prod.mk.injEq] at h
      obtain ⟨hy, hm, hd⟩ := h
      subst hc4
      subst hc7
      exact ⟨c0, c1, c2, c3, c5, c6, c8, c9, rfl, hy1, hy2, hy3, hy4, hm1, hm2,
        hd1, hd2, hy.symm, hm.symm, hd.symm⟩
    · exact absurd h (by simp)
  · simp [parseYMD] at h

/-- Parsed date components are bounded by their digit counts. -/
theorem parseYMD_bounds {s : String} {y m d : Nat}
    (h : parseYMD s = some (y, m, d)) : y ≤ 9999 ∧ m ≤ 99 ∧ d ≤ 99 := by
  obtain ⟨y1, y2, y3, y4, m1, m2, d1, d2, _, h1, h2, h3, h4, h5, h6, h7, h8,
    hy, hm, hd⟩ := parseYMD_shape h
  have b1 := digitVal_le h1
  have b2 := digitVal_le h2
  have b3 := digitVal_le h3
  have b4 := digitVal_le h4
  have b5 := digitVal_le h5
  have b6 := digitVal_le h6
  have b7 := digitVal_le h7
  have b8 := digitVal_le h8
  omega

/-- C2 counterexample.  `0050-01-01` matches `^\d{4}-\d{2}-\d{2}$` and
is a perfectly real Gregorian calendar date, yet the hook rejects it: the
`Date.UTC` reconstruction reads year 50 as 1950, so the component
round-trip check fails. -/
theorem normalizeDate_year_lt100_cex :
    parseYMD "0050-01-01" = some (50, 1, 1) ∧
    (1 ≤ 1 ∧ (1 : Nat) ≤ 12 ∧ 1 ≤ 1 ∧ 1 ≤ daysInMonth 50 1) ∧
    jsUTCRoundTrip 50 1 1 = (1950, 1, 1) ∧
    normalizeDate "0050-01-01" = .error "Invalid date components" :=
  ⟨by decide, by decide, by decide, by decide⟩

set_option maxRecDepth 4000 in
/-- C2 (amended).  Date normalization succeeds exactly on strings
matching `^\d{4}-\d{2}-\d{2}$` whose components form a real Gregorian
calendar date *with year component at least 100* (years 0000–0099 are
rejected because `Date.UTC` maps them to 1900–1999, breaking the
round-trip); `2024-02-30` is rejected by the calendar-validity check and
`2024-3-5` by the pattern, not auto-corrected. -/
theorem normalizeDate_accepts_iff :
    (∀ s : String, (normalizeDate s).isOk = true ↔
      ∃ y m d, parseYMD s = some (y, m, d) ∧ 100 ≤ y ∧ 1 ≤ m ∧ m ≤ 12 ∧
        1 ≤ d ∧ d ≤ daysInMonth y m) ∧
    normalizeDate "2024-02-30" = .error "Invalid date components" ∧
    normalizeDate "2024-3-5" = .error "Date must be in YYYY-MM-DD format" ∧
    (normalizeDate "2024-03-05").isOk = true := by
  refine ⟨fun s => ?_, by decide, by decide, by decide⟩
  cases hp : parseYMD s with
  | none =>
    have hnd : normalizeDate s = .error "Date must be in YYYY-MM-DD format" := by
      unfold normalizeDate
      rw [hp]
    rw [hnd]
    simp only [Except.isOk, Except.toBool]
    constructor
    · intro h
      exact absurd h (by simp)
    · rintro ⟨y, m, d, hsome, _⟩
      exact absurd hsome (by simp)
  | some t =>
    obtain ⟨y, m, d⟩ := t
    have hnd : normalizeDate s =
        if jsUTCRoundTrip y m d = (y, m, d) then
          .ok (jsNumToString y ++ "-" ++ pad2Nat m ++ "-" ++ pad2Nat d)
        else .error "Invalid date components" := by
      unfold normalizeDate
      rw [hp]
    rw [hnd]
    by_cases hrt : jsUTCRoundTrip y m d = (y, m, d)
    · rw [if_pos hrt]
      simp only [Except.isOk, Except.toBool, true_iff]
      obtain ⟨h100, h1, h2, h3, h4⟩ := jsUTCRoundTrip_eq_iff.mp hrt
      exact ⟨y, m, d, rfl, h100, h1, h2, h3, h4⟩
    · rw [if_neg hrt]
      simp only [Except.isOk, Except.toBool]
      constructor
      · intro h
        exact absurd h (by simp)
      · rintro ⟨y2, m2, d2, hsome, h100, h1, h2, h3, h4⟩
        simp only [Option.some.injEq, Prod.mk.injEq] at hsome
        obtain ⟨hy, hm, hd⟩ := hsome
        subst hy
        subst hm
        subst hd
        exact absurd (jsUTCRoundTrip_valid h100 h1 h2 h3 h4) hrt

/-! ### Decimal re-serialization lemmas (for C9 and C3) -/

/-- One-digit numbers print as their digit character. -/
theorem jsNumToStringCore_one {fuel n : Nat} (acc : List Char) (hn : n < 10)
    (hf : 1 ≤ fuel) : jsNumToStringCore fuel n acc = decDigitChar n :: acc := by
  cases fuel with
  | zero => omega
  | succ f => simp [jsNumToStringCore, hn]

/-- Unfolding step of the decimal printer for two or more digits. -/
theorem jsNumToStringCore_step {fuel n : Nat} (acc : List Char) (hn : 10 ≤ n) :
    jsNumToStringCore (fuel + 1) n acc =
      jsNumToStringCore fuel (n / 10) (decDigitChar (n % 10) :: acc) := by
  show (if n < 10 then decDigitChar n :: acc
      else jsNumToStringCore fuel (n / 10) (decDigitChar (n % 10) :: acc)) =
    jsNumToStringCore fuel (n / 10) (decDigitChar (n % 10) :: acc)
  rw [if_neg (by omega : ¬ n < 10)]

/-- Two-digit numbers print as their two digit characters. -/
theorem jsNumToStringCore_two {fuel n : Nat} (acc : List Char) (h1 : 10 ≤ n)
    (h2 : n ≤ 99) (hf : 2 ≤ fuel) :
    jsNumToStringCore fuel n acc =
      decDigitChar (n / 10) :: decDigitChar (n % 10) :: acc := by
  cases fuel with
  | zero => omega
  | succ f =>
    rw [jsNumToStringCore_step acc h1]
    exact jsNumToStringCore_one _ (by omega) (by omega)

/-- Four-digit numbers print as their four digit characters. -/
theorem jsNumToStringCore_four {fuel n : Nat} (acc : List Char) (h1 : 1000 ≤ n)
    (h2 : n ≤ 9999) (hf : 4 ≤ fuel) :
    jsNumToStringCore fuel n acc =
      decDigitChar (n / 1000) :: decDigitChar (n / 100 % 10) ::
        decDigitChar (n / 10 % 10) :: decDigitChar (n % 10) :: acc := by
  cases fuel with
  | zero => omega
  | succ f =>
    rw [jsNumToStringCore_step acc (by omega)]
    cases f with
    | zero => omega
    | succ f2 =>
      rw [jsNumToStringCore_step _ (by omega : 10 ≤ n / 10)]
      have e1 : n / 10 / 10 = n / 100 := by omega
      have e2 : n / 10 % 10 = n / 10 % 10 := rfl
      rw [e1]
      rw [jsNumToStringCore_two _ (by omega : 10 ≤ n / 100) (by omega) (by omega)]
      have e3 : n / 100 / 10 = n / 1000 := by omega
      rw [e3]

/-- Printing `decDigitChar` inverts `digitVal` on digit characters. -/
theorem decDigitChar_digitVal {c : Char} (h : isDigitChar c = true) :
    decDigitChar (digitVal c) = c := by
  obtain ⟨-, hlo, hhi⟩ := digitVal_le h
  unfold decDigitChar digitVal
  have he : 48 + (c.toNat - 48) = c.toNat := by omega
  rw [he]
  exact Char.ofNat_toNat c

/-- A digit character of value 0 is `'0'`. -/
theorem digit_zero_char {c : Char} (h : isDigitChar c = true)
    (h0 : digitVal c = 0) : c = '0' := by
  have := decDigitChar_digitVal h
  rw [h0] at this
  rw [← this]
  decide

/-- Applying `padStart(2, '0')` to a two-digit value built from digit characters
prints those same two characters. -/
theorem pad2Nat_digits {m1 m2 : Char} (h1 : isDigitChar m1 = true)
    (h2 : isDigitChar m2 = true) :
    (pad2Nat (digitVal m1 * 10 + digitVal m2)).data = [m1, m2] := by
  have b1 := digitVal_le h1
  have b2 := digitVal_le h2
  by_cases hz : digitVal m1 = 0
  · have hsmall : digitVal m1 * 10 + digitVal m2 < 10 := by omega
    unfold pad2Nat
    rw [if_pos hsmall]
    unfold jsNumToString
    rw [String.data_append,
      jsNumToStringCore_one [] hsmall (by omega)]
    have hval : digitVal m1 * 10 + digitVal m2 = digitVal m2 := by omega
    rw [hval, decDigitChar_digitVal h2, digit_zero_char h1 hz]
    rfl
  · have hbig : 10 ≤ digitVal m1 * 10 + digitVal m2 := by omega
    unfold pad2Nat
    rw [if_neg (by omega)]
    unfold jsNumToString
    rw [jsNumToStringCore_two [] hbig (by omega) (by omega)]
    have e1 : (digitVal m1 * 10 + digitVal m2) / 10 = digitVal m1 := by omega
    have e2 : (digitVal m1 * 10 + digitVal m2) % 10 = digitVal m2 := by omega
    rw [e1, e2, decDigitChar_digitVal h1, decDigitChar_digitVal h2]

/-- The year printer reproduces the four original digit characters when the
leading digit is non-zero. -/
theorem jsNumToString_four_digits {y1 y2 y3 y4 : Char}
    (h1 : isDigitChar y1 = true) (h2 : isDigitChar y2 = true)
    (h3 : isDigitChar y3 = true) (h4 : isDigitChar y4 = true)
    (hnz : digitVal y1 ≠ 0) :
    (jsNumToString (digitVal y1 * 1000 + digitVal y2 * 100 + digitVal y3 * 10 +
        digitVal y4)).data = [y1, y2, y3, y4] := by
  have b1 := digitVal_le h1
  have b2 := digitVal_le h2
  have b3 := digitVal_le h3
  have b4 := digitVal_le h4
  set n := digitVal y1 * 1000 + digitVal y2 * 100 + digitVal y3 * 10 + digitVal y4
    with hn
  unfold jsNumToString
  rw [jsNumToStringCore_four [] (by omega) (by omega) (by omega)]
  have e1 : n / 1000 = digitVal y1 := by omega
  have e2 : n / 100 % 10 = digitVal y2 := by omega
  have e3 : n / 10 % 10 = digitVal y3 := by omega
  have e4 : n % 10 = digitVal y4 := by omega
  rw [e1, e2, e3, e4, decDigitChar_digitVal h1, decDigitChar_digitVal h2,
    decDigitChar_digitVal h3, decDigitChar_digitVal h4]

/-- C9 counterexample.  The stored date re-serializes the year with
`` `${yyyy}` ``, which does not zero-pad: the accepted input `0924-05-05`
is stored as `924-05-05`, so normalization is not the identity on every
accepted input. -/
theorem normalizeDate_identity_cex :
    normalizeDate "0924-05-05" = .ok "924-05-05" ∧
    ("924-05-05" : String) ≠ "0924-05-05" :=
  ⟨by decide, by decide⟩

/-- C9 (amended).  Date normalization is the identity on every accepted
input whose year component is at least 1000 (leading year digit non-zero):
month and day are re-serialized through two-digit zero-padding and the year
prints back as its four digits.  (Accepted years 100–999 — written with a
leading zero — are re-serialized without that zero instead.) -/
theorem normalizeDate_identity_4digit (s : String) (y m d : Nat)
    (hp : parseYMD s = some (y, m, d)) (hy : 1000 ≤ y)
    (hok : (normalizeDate s).isOk = true) :
    normalizeDate s = .ok s := by
  obtain ⟨y1, y2, y3, y4, m1, m2, d1, d2, hdata, hy1, hy2, hy3, hy4, hm1, hm2,
    hd1, hd2, hyv, hmv, hdv⟩ := parseYMD_shape hp
  have hnd : normalizeDate s =
      if jsUTCRoundTrip y m d = (y, m, d) then
        .ok (jsNumToString y ++ "-" ++ pad2Nat m ++ "-" ++ pad2Nat d)
      else .error "Invalid date components" := by
    unfold normalizeDate
    rw [hp]
  by_cases hrt : jsUTCRoundTrip y m d = (y, m, d)
  · rw [hnd, if_pos hrt]
    congr 1
    have hds : (jsNumToString y ++ "-" ++ pad2Nat m ++ "-" ++ pad2Nat d).data =
        s.data := by
      simp only [String.data_append]
      have hnz : digitVal y1 ≠ 0 := by
        have b2 := digitVal_le hy2
        have b3 := digitVal_le hy3
        have b4 := digitVal_le hy4
        omega
      rw [hyv, jsNumToString_four_digits hy1 hy2 hy3 hy4 hnz,
        hmv, pad2Nat_digits hm1 hm2, hdv, pad2Nat_digits hd1 hd2, hdata]
      rfl
    exact String.ext hds
  · rw [hnd, if_neg hrt] at hok
    exact absurd hok (by simp [Except.isOk, Except.toBool])

/-- Witness for C9: the already-canonical `2024-03-05` is stored
unchanged. -/
theorem normalizeDate_identity_4digit_witness :
    normalizeDate "2024-03-05" = .ok "2024-03-05" :=
  normalizeDate_identity_4digit "2024-03-05" 2024 3 5 (by decide) (by decide)
    (by decide)

/-! ### C3: time normalization -/

/-- Applying `padStart(2, '0')` to a one-digit value taken from a digit character. -/
theorem pad2Nat_one_digit {c : Char} (h : isDigitChar c = true) :
    (pad2Nat (digitVal c)).data = ['0', c] := by
  have b := digitVal_le h
  unfold pad2Nat
  rw [if_pos (by omega : digitVal c < 10)]
  unfold jsNumToString
  rw [String.data_append, jsNumToStringCore_one [] (by omega) (by omega),
    decDigitChar_digitVal h]
  rfl

/-- Characters are equal when their code points are. -/
theorem char_eq_of_toNat {c : Char} {n : Nat} (hn : c.toNat = n) (d : Char)
    (hd : d.toNat = n) : c = d :=
  char_eq_of_toNat_eq (by rw [hn, hd])

/-- The `H:MM` case of time normalization agrees with the claim-side
contract. -/
theorem normalizeTime_shape4 (c0 c1 c2 c3 : Char) :
    (∀ h mi, specTimeParse ⟨[c0, c1, c2, c3]⟩ = some (h, mi) →
      normalizeTime ⟨[c0, c1, c2, c3]⟩ = .ok (pad2Nat h ++ ":" ++ pad2Nat mi)) ∧
    (specTimeParse ⟨[c0, c1, c2, c3]⟩ = none →
      normalizeTime ⟨[c0, c1, c2, c3]⟩ = .error "Time must be in HH:MM format") := by
  constructor
  · intro h mi hsp
    simp only [specTimeParse] at hsp
    split at hsp
    · next hcond =>
      simp only [Bool.and_eq_true, beq_iff_eq, decide_eq_true_eq] at hcond
      obtain ⟨⟨⟨⟨⟨hc1, hd0⟩, hd2⟩, hd3⟩, hh23⟩, hm59⟩ := hcond
      simp only [Option.some.injEq, Prod.mk.injEq] at hsp
      obtain ⟨hh, hmi⟩ := hsp
      subst hc1
      have b0 := digitVal_le hd0
      have b2 := digitVal_le hd2
      have b3 := digitVal_le hd3
      have hrt : timeRegexTest ⟨[c0, ':', c2, c3]⟩ = true := by
        simp only [timeRegexTest, Bool.and_eq_true, beq_iff_eq, decide_eq_true_eq]
        refine ⟨⟨⟨trivial, hd0⟩, ?_⟩, hd3⟩
        unfold digitVal at hm59
        omega
      unfold normalizeTime
      rw [if_neg (by simp [hrt])]
      show Except.ok (⟨['0', c0, ':', c2, c3]⟩ : String) =
        Except.ok (pad2Nat h ++ ":" ++ pad2Nat mi)
      rw [← hh, ← hmi]
      congr 1
      apply String.ext
      rw [String.data_append, String.data_append, pad2Nat_one_digit hd0,
        pad2Nat_digits hd2 hd3]
      rfl
    · exact absurd hsp (by simp)
  · intro hsp
    by_cases hr : timeRegexTest ⟨[c0, c1, c2, c3]⟩ = false
    · unfold normalizeTime
      rw [if_pos hr]
    · have hrt : timeRegexTest ⟨[c0, c1, c2, c3]⟩ = true := by
        simpa using hr
      simp only [timeRegexTest, Bool.and_eq_true, beq_iff_eq, decide_eq_true_eq]
        at hrt
      obtain ⟨⟨⟨hc1, hd0⟩, hc2⟩, hd3⟩ := hrt
      subst hc1
      simp only [specTimeParse] at hsp
      split at hsp
      · exact absurd hsp (by simp)
      · next hcond =>
        exfalso
        apply hcond
        simp only [Bool.and_eq_true, beq_iff_eq, decide_eq_true_eq]
        have b0 := digitVal_le hd0
        have b3 := digitVal_le hd3
        refine ⟨⟨⟨⟨⟨trivial, hd0⟩, ?_⟩, hd3⟩, ?_⟩, ?_⟩
        · simp only [isDigitChar, Bool.and_eq_true, decide_eq_true_eq]
          omega
        · unfold digitVal
          omega
        · unfold digitVal
          omega

/-- The `HH:MM` case of time normalization agrees with the claim-side
contract. -/
theorem normalizeTime_shape5 (c0 c1 c2 c3 c4 : Char) :
    (∀ h mi, specTimeParse ⟨[c0, c1, c2, c3, c4]⟩ = some (h, mi) →
      normalizeTime ⟨[c0, c1, c2, c3, c4]⟩ =
        .ok (pad2Nat h ++ ":" ++ pad2Nat mi)) ∧
    (specTimeParse ⟨[c0, c1, c2, c3, c4]⟩ = none →
      normalizeTime ⟨[c0, c1, c2, c3, c4]⟩ =
        .error "Time must be in HH:MM format") := by
  constructor
  · intro h mi hsp
    simp only [specTimeParse] at hsp
    split at hsp
    · next hcond =>
      simp only [Bool.and_eq_true, beq_iff_eq, decide_eq_true_eq] at hcond
      obtain ⟨⟨⟨⟨⟨⟨hc2, hd0⟩, hd1⟩, hd3⟩, hd4⟩, hh23⟩, hm59⟩ := hcond
      simp only [Option.some.injEq, Prod.mk.injEq] at hsp
      obtain ⟨hh, hmi⟩ := hsp
      subst hc2
      have b0 := digitVal_le hd0
      have b1 := digitVal_le hd1
      have b3 := digitVal_le hd3
      have b4 := digitVal_le hd4
      have hrt : timeRegexTest ⟨[c0, c1, ':', c3, c4]⟩ = true := by
        simp only [timeRegexTest, Bool.and_eq_true, Bool.or_eq_true, beq_iff_eq,
          decide_eq_true_eq]
        refine ⟨⟨⟨trivial, ?_⟩, ?_⟩, hd4⟩
        · unfold digitVal at hh23
          by_cases h01 : c0.toNat ≤ 49
          · refine Or.inl ⟨?_, hd1⟩
            by_cases h48 : c0.toNat = 48
            · exact Or.inl (char_eq_of_toNat h48 '0' rfl)
            · exact Or.inr (char_eq_of_toNat (by omega : c0.toNat = 49) '1' rfl)
          · refine Or.inr ⟨char_eq_of_toNat (by omega : c0.toNat = 50) '2' rfl, ?_⟩
            omega
        · unfold digitVal at hm59
          omega
      unfold normalizeTime
      rw [if_neg (by simp [hrt])]
      show Except.ok (⟨[c0, c1, ':', c3, c4]⟩ : String) =
        Except.ok (pad2Nat h ++ ":" ++ pad2Nat mi)
      rw [← hh, ← hmi]
      congr 1
      apply String.ext
      rw [String.data_append, String.data_append, pad2Nat_digits hd0 hd1,
        pad2Nat_digits hd3 hd4]
      rfl
    · exact absurd hsp (by simp)
  · intro hsp
    by_cases hr : timeRegexTest ⟨[c0, c1, c2, c3, c4]⟩ = false
    · unfold normalizeTime
      rw [if_pos hr]
    · have hrt : timeRegexTest ⟨[c0, c1, c2, c3, c4]⟩ = true := by
        simpa using hr
      simp only [timeRegexTest, Bool.and_eq_true, Bool.or_eq_true, beq_iff_eq,
        decide_eq_true_eq] at hrt
      obtain ⟨⟨⟨hc2, hhour⟩, hmin⟩, hd4⟩ := hrt
      subst hc2
      have hzero : ('0' : Char).toNat = 48 := rfl
      have hone : ('1' : Char).toNat = 49 := rfl
      have htwo : ('2' : Char).toNat = 50 := rfl
      have hhour' : isDigitChar c0 = true ∧ isDigitChar c1 = true ∧
          digitVal c0 * 10 + digitVal c1 ≤ 23 := by
        rcases hhour with ⟨hc0, hd1⟩ | ⟨hc0, hr1⟩
        · have hb1 := digitVal_le hd1
          rcases hc0 with rfl | rfl
          · refine ⟨by decide, hd1, ?_⟩
            unfold digitVal
            omega
          · refine ⟨by decide, hd1, ?_⟩
            unfold digitVal
            omega
        · subst hc0
          refine ⟨by decide, ?_, ?_⟩
          · simp only [isDigitChar, Bool.and_eq_true, decide_eq_true_eq]
            omega
          · unfold digitVal
            omega
      have b4 := digitVal_le hd4
      simp only [specTimeParse] at hsp
      split at hsp
      · exact absurd hsp (by simp)
      · next hcond =>
        exfalso
        apply hcond
        simp only [Bool.and_eq_true, beq_iff_eq, decide_eq_true_eq]
        refine ⟨⟨⟨⟨⟨⟨trivial, hhour'.1⟩, hhour'.2.1⟩, ?_⟩, hd4⟩, hhour'.2.2⟩, ?_⟩
        · simp only [isDigitChar, Bool.and_eq_true, decide_eq_true_eq]
          omega
        · unfold digitVal
          omega

/-- C3.  Time normalization accepts exactly the strings `H:MM` / `HH:MM`
with hour value 0–23 and two-digit minute 00–59 (`specTimeParse`), aborting
with an error otherwise; accepted values are stored as the zero-padded
canonical `HH:MM`: `9:5` is rejected, `09:05` is stored unchanged, and
`9:05` becomes `09:05`. -/
theorem normalizeTime_spec :
    (∀ (s : String) (h mi : Nat), specTimeParse s = some (h, mi) →
      normalizeTime s = .ok (pad2Nat h ++ ":" ++ pad2Nat mi)) ∧
    (∀ s : String, specTimeParse s = none →
      normalizeTime s = .error "Time must be in HH:MM format") ∧
    normalizeTime "9:5" = .error "Time must be in HH:MM format" ∧
    normalizeTime "09:05" = .ok "09:05" ∧
    normalizeTime "9:05" = .ok "09:05" := by
  refine ⟨?_, ?_, by decide, by decide, by decide⟩
  · intro s h mi hsp
    obtain ⟨l⟩ := s
    rcases l with _ | ⟨c0, l⟩; · simp [specTimeParse] at hsp
    rcases l with _ | ⟨c1, l⟩; · simp [specTimeParse] at hsp
    rcases l with _ | ⟨c2, l⟩; · simp [specTimeParse] at hsp
    rcases l with _ | ⟨c3, l⟩; · simp [specTimeParse] at hsp
    rcases l with _ | ⟨c4, l⟩
    · exact (normalizeTime_shape4 c0 c1 c2 c3).1 h mi hsp
    rcases l with _ | ⟨c5, l⟩
    · exact (normalizeTime_shape5 c0 c1 c2 c3 c4).1 h mi hsp
    · simp [specTimeParse] at hsp
  · intro s hsp
    obtain ⟨l⟩ := s
    rcases l with _ | ⟨c0, l⟩; · rfl
    rcases l with _ | ⟨c1, l⟩; · rfl
    rcases l with _ | ⟨c2, l⟩; · rfl
    rcases l with _ | ⟨c3, l⟩; · rfl
    rcases l with _ | ⟨c4, l⟩
    · exact (normalizeTime_shape4 c0 c1 c2 c3).2 hsp
    rcases l with _ | ⟨c5, l⟩
    · exact (normalizeTime_shape5 c0 c1 c2 c3 c4).2 hsp
    · rfl

/-- Witness for C3: `7:30` is accepted with hour 7 and minute 30 and stored
as the canonical zero-padded form. -/
theorem normalizeTime_spec_witness :
    normalizeTime "7:30" = .ok (pad2Nat 7 ++ ":" ++ pad2Nat 30) :=
  normalizeTime_spec.1 "7:30" 7 30 (by decide)

/-! ### C7: the Booking email validator -/

/-- Splitting a string of the form `local ++ '@' ++ rest` at the first
non-`[^\s@]` character recovers exactly `local` and `'@' ++ rest`. -/
theorem emailSplit {l : List Char} (rest : List Char)
    (hl : ∀ c ∈ l, isEmailChar c = true) :
    (l ++ '@' :: rest).takeWhile isEmailChar = l ∧
    (l ++ '@' :: rest).dropWhile isEmailChar = '@' :: rest := by
  have hat : isEmailChar '@' = false := by decide
  induction l with
  | nil =>
    constructor
    · show List.takeWhile isEmailChar ('@' :: rest) = []
      simp [List.takeWhile_cons, hat]
    · show List.dropWhile isEmailChar ('@' :: rest) = '@' :: rest
      simp [List.dropWhile_cons, hat]
  | cons a l' ih =>
    have ha : isEmailChar a = true := hl a (by simp)
    have ih' := ih fun c hc => hl c (by simp [hc])
    constructor
    · show List.takeWhile isEmailChar (a :: (l' ++ '@' :: rest)) = a :: l'
      rw [List.takeWhile_cons, if_pos ha, ih'.1]
    · show List.dropWhile isEmailChar (a :: (l' ++ '@' :: rest)) = '@' :: rest
      rw [List.dropWhile_cons, if_pos ha, ih'.2]

/-- The email regex accepts exactly the strings of the dotted-domain
shape. -/
theorem emailRegexTest_iff_dotted (s : String) :
    emailRegexTest s = true ↔ SpecEmailDotted s := by
  constructor
  · intro h
    unfold emailRegexTest at h
    cases hdw : s.data.dropWhile isEmailChar with
    | nil => rw [hdw] at h; simp at h
    | cons c dom =>
      rw [hdw] at h
      simp only [Bool.and_eq_true, beq_iff_eq, Bool.not_eq_true',
        List.all_eq_true] at h
      obtain ⟨⟨⟨hc, hteq⟩, hall⟩, hdot⟩ := h
      subst hc
      have hsplit := List.takeWhile_append_dropWhile (p := isEmailChar) (l := s.data)
      have hloc : ∀ ch ∈ s.data.takeWhile isEmailChar, isEmailChar ch = true :=
        fun ch hch => List.mem_takeWhile_imp hch
      have hdom : dom ≠ [] := by
        intro hnil
        rw [hnil] at hdot
        simp at hdot
      obtain ⟨d0, dtl, rfl⟩ : ∃ d0 dtl, dom = d0 :: dtl := by
        cases dom with
        | nil => exact absurd rfl hdom
        | cons x xs => exact ⟨x, xs, rfl⟩
      have hdot' : '.' ∈ dtl.dropLast := by
        have : (d0 :: dtl).drop 1 = dtl := by simp
        rw [this] at hdot
        simpa using hdot
      have hdtl : dtl ≠ [] := by
        intro hnil
        rw [hnil] at hdot'
        simp at hdot'
      obtain ⟨bl, hbl⟩ : ∃ bl, dtl.dropLast ++ [bl] = dtl :=
        ⟨dtl.getLast hdtl, List.dropLast_append_getLast hdtl⟩
      obtain ⟨xs, ys, hxy⟩ := List.append_of_mem hdot'
      have hd : dtl = xs ++ '.' :: (ys ++ [bl]) := by
        conv_lhs => rw [← hbl]
        rw [hxy]
        simp
      refine ⟨s.data.takeWhile isEmailChar, d0 :: xs, ys ++ [bl],
        ?_, by simpa using hteq, by simp, by simp, hloc, ?_, ?_⟩
      · conv_lhs => rw [← hsplit]
        rw [hdw, hd]
        simp
      · intro ch hch
        rcases List.mem_cons.mp hch with rfl | hch
        · exact hall _ (by simp)
        · refine hall _ ?_
          have hmem2 : ch ∈ dtl := by
            rw [hd]
            simp [hch]
          simp [hmem2]
      · intro ch hch
        refine hall _ ?_
        have hmem2 : ch ∈ dtl := by
          rw [hd]
          rcases List.mem_append.mp hch with hch | hch
          · simp [hch]
          · simp at hch
            subst hch
            simp
        simp [hmem2]
  · rintro ⟨l, a, b, hdata, hl, ha, hb, hlc, hac, hbc⟩
    have hdotchar : isEmailChar '.' = true := by decide
    have hdomchars : ∀ ch ∈ a ++ '.' :: b, isEmailChar ch = true := by
      intro ch hch
      rcases List.mem_append.mp hch with hch | hch
      · exact hac ch hch
      · rcases List.mem_cons.mp hch with rfl | hch
        · exact hdotchar
        · exact hbc ch hch
    have hsp := emailSplit (a ++ '.' :: b) hlc
    unfold emailRegexTest
    rw [hdata, hsp.2]
    simp only [Bool.and_eq_true, beq_iff_eq, Bool.not_eq_true', List.all_eq_true]
    refine ⟨⟨⟨trivial, ?_⟩, hdomchars⟩, ?_⟩
    · rw [hsp.1]
      cases l with
      | nil => exact absurd rfl hl
      | cons x xs => simp
    · obtain ⟨a0, atl, rfl⟩ : ∃ a0 atl, a = a0 :: atl := by
        cases a with
        | nil => exact absurd rfl ha
        | cons x xs => exact ⟨x, xs, rfl⟩
      obtain ⟨btl, bl, hbsplit⟩ : ∃ btl bl, b = btl ++ [bl] := by
        refine ⟨b.dropLast, b.getLast hb, (List.dropLast_append_getLast hb).symm⟩
      rw [hbsplit]
      have hdrop : ((a0 :: atl) ++ '.' :: (btl ++ [bl])).drop 1 =
          atl ++ '.' :: (btl ++ [bl]) := by simp
      rw [hdrop]
      have hdl : (atl ++ '.' :: (btl ++ [bl])).dropLast = atl ++ '.' :: btl := by
        have : atl ++ '.' :: (btl ++ [bl]) = (atl ++ '.' :: btl) ++ [bl] := by simp
        rw [this, List.dropLast_concat]
      rw [hdl]
      simp

/-- C7 counterexample.  `a@b` is of the claimed shape — local-part,
`'@'`, domain, no whitespace, all parts non-empty — but the validator's
regex additionally requires a dot inside the domain, so the save is
rejected. -/
theorem email_basic_claim_cex :
    specEmailBasic (mongooseEmailSetter "a@b") = true ∧
    bookingEmailCheck "a@b" = .error "Please provide a valid email address" :=
  ⟨by decide, by decide⟩

/-- C7 (amended).  A Booking email value is accepted exactly when its
lowercased, trimmed form is `local@domain` where the local part is a
non-empty run of non-whitespace, non-`@` characters and the domain is a
non-empty run of such characters containing an interior dot; the stored
value is the lowercased, trimmed form; otherwise the save is rejected with
the configured validation message. -/
theorem bookingEmail_accepts_iff_dotted :
    ∀ v : String,
      (bookingEmailCheck v = .ok (mongooseEmailSetter v) ∨
        bookingEmailCheck v = .error "Please provide a valid email address") ∧
      (bookingEmailCheck v = .ok (mongooseEmailSetter v) ↔
        SpecEmailDotted (mongooseEmailSetter v)) := by
  intro v
  unfold bookingEmailCheck
  by_cases hr : emailRegexTest (mongooseEmailSetter v) = true
  · rw [if_pos hr]
    exact ⟨Or.inl rfl, by
      simp only [true_iff]
      exact (emailRegexTest_iff_dotted _).mp hr⟩
  · rw [if_neg hr]
    refine ⟨Or.inr rfl, ?_⟩
    constructor
    · intro h
      exact absurd h (by simp)
    · intro h
      exact absurd ((emailRegexTest_iff_dotted _).mpr h) hr

/-- Witness for C7: a mixed-case, padded address is normalized and
accepted. -/
theorem bookingEmail_accepts_iff_dotted_witness :
    bookingEmailCheck " John.Doe@Example.COM " = .ok "john.doe@example.com" := by
  have h := (bookingEmail_accepts_iff_dotted " John.Doe@Example.COM ").2.mpr
  have hspec : SpecEmailDotted (mongooseEmailSetter " John.Doe@Example.COM ") := by
    refine ⟨"john.doe".data, "example".data, "com".data, by decide, by decide,
      by decide, by decide, by decide, by decide, by decide⟩
  have := h hspec
  rw [this]
  decide

end DevEvents
